import Mathlib

/-!
Verification of the ccweb pane-layout tree, pane/tab orchestrator and PTY
session registry, shallowly embedded from the TypeScript sources
(`src/lib/tileLayout.ts`, `src/App.tsx`, `server/terminal.ts`,
`server/index.ts`).
-/

set_option maxRecDepth 4096

/-! Section: Pane layout tree (tileLayout.ts) -/

inductive TileDirection
| horizontal
| vertical
deriving DecidableEq

inductive SplitPlacement
| before
| after
deriving DecidableEq

/-- The `TileNode`: a terminal leaf, an editor leaf, or a split with two children. -/
inductive TileNode
| term (terminalId : String)
| editor (filePath : String)
| split (direction : TileDirection) (left right : TileNode)
deriving DecidableEq

/-- The `leafId(node)`: the unique id of a leaf node (`terminalId` or `filePath`), null for splits. -/
def leafId : TileNode → Option String
  | .term tid => some tid
  | .editor fp => some fp
  | .split _ _ _ => none

/-- The `existsInTile(layout, id)`. -/
def existsInTile : TileNode → String → Bool
  | .split _ l r, tid => existsInTile l tid || existsInTile r tid
  | node, tid => leafId node == some tid

/-- The `findInTile(layout, id)`: first matching leaf in depth-first order, else null. -/
def findInTile : TileNode → String → Option TileNode
  | .split _ l r, tid =>
    match findInTile l tid with
    | some n => some n
    | none => findInTile r tid
  | node, tid => if leafId node = some tid then some node else none

/-- The `countLeaves(layout)`. -/
def countLeaves : TileNode → Nat
  | .split _ l r => countLeaves l + countLeaves r
  | _ => 1

/-- The `replaceInTile(layout, id, replacement)`: replace the leaf with the id by a new subtree. -/
def replaceInTile : TileNode → String → TileNode → TileNode
  | .split d l r, tid, rep => .split d (replaceInTile l tid rep) (replaceInTile r tid rep)
  | node, tid, rep => if leafId node = some tid then rep else node

/-- The `removeFromTile(layout, id)`: prune the leaf; null when the tree becomes empty;
a split losing one child is replaced by the surviving child. -/
def removeFromTile : TileNode → String → Option TileNode
  | .split d l r, tid =>
    match removeFromTile l tid, removeFromTile r tid with
    | none, none => none
    | none, some r2 => some r2
    | some l2, none => some l2
    | some l2, some r2 => some (.split d l2 r2)
  | node, tid => if leafId node = some tid then none else some node

/-- The `splitAtTileWithPlacement(layout, targetId, newNode, direction, placement)`:
wrap the target leaf in a split with the new sibling; a missing target falls back
to a literal terminal leaf with that id. -/
def splitAtTileWithPlacement (layout : TileNode) (targetId : String) (newNode : TileNode)
    (d : TileDirection) (placement : SplitPlacement) : TileNode :=
  let targetNode := match findInTile layout targetId with
    | some n => n
    | none => .term targetId
  let splitNode : TileNode := match placement with
    | .before => .split d newNode targetNode
    | .after => .split d targetNode newNode
  replaceInTile layout targetId splitNode

/-- The `splitAtTile(layout, targetId, newNode, direction)`: placement defaults to after. -/
def splitAtTile (layout : TileNode) (targetId : String) (newNode : TileNode)
    (d : TileDirection) : TileNode :=
  splitAtTileWithPlacement layout targetId newNode d .after

/-- The temporary placeholder leaf used by `swapTiles`. -/
def swapPlaceholder : TileNode := .term "__swap_placeholder__"

/-- The `swapTiles(layout, idA, idB)`: swap two leaves via a placeholder; no-op if
either id is absent. -/
def swapTiles (layout : TileNode) (idA idB : String) : TileNode :=
  match findInTile layout idA, findInTile layout idB with
  | some nodeA, some nodeB =>
    let r1 := replaceInTile layout idA swapPlaceholder
    let r2 := replaceInTile r1 idB nodeA
    replaceInTile r2 "__swap_placeholder__" nodeB
  | _, _ => layout

/-- The `getAllLeafIds(layout)`: leaf ids in left-to-right depth-first order
(a falsy — empty — id is dropped, as in the JS truthiness test). -/
def getAllLeafIds : TileNode → List String
  | .split _ l r => getAllLeafIds l ++ getAllLeafIds r
  | node =>
    match leafId node with
    | some tid => if tid = "" then [] else [tid]
    | none => []

/-- All leaf ids of a tree in depth-first order (no truthiness filtering);
used to state uniqueness/membership side conditions of the data model. -/
def tileIds : TileNode → List String
  | .split _ l r => tileIds l ++ tileIds r
  | node =>
    match leafId node with
    | some tid => [tid]
    | none => []

/-! Section: basic tree lemmas -/

theorem leafId_isSome_of_not_split (t : TileNode) (h : ∀ d l r, t ≠ .split d l r) :
    ∃ tid, leafId t = some tid := by
  cases t with
  | term tid => exact ⟨tid, rfl⟩
  | editor fp => exact ⟨fp, rfl⟩
  | split d l r => exact absurd rfl (h d l r)

theorem removeFromTile_self (node : TileNode) (nid : String) (h : leafId node = some nid) :
    removeFromTile node nid = none := by
  cases node <;> simp_all [removeFromTile, leafId]

theorem replaceInTile_not_mem (t : TileNode) (tid : String) (rep : TileNode)
    (h : tid ∉ tileIds t) : replaceInTile t tid rep = t := by
  induction t with
  | term s =>
    simp only [tileIds, leafId, List.mem_singleton] at h
    simp [replaceInTile, leafId, Ne.symm h]
  | editor s =>
    simp only [tileIds, leafId, List.mem_singleton] at h
    simp [replaceInTile, leafId, Ne.symm h]
  | split d l r ihl ihr =>
    simp only [tileIds, List.mem_append] at h
    push_neg at h
    simp only [replaceInTile, ihl h.1, ihr h.2]

theorem removeFromTile_not_mem (t : TileNode) (tid : String)
    (h : tid ∉ tileIds t) : removeFromTile t tid = some t := by
  induction t with
  | term s =>
    simp only [tileIds, leafId, List.mem_singleton] at h
    simp [removeFromTile, leafId, Ne.symm h]
  | editor s =>
    simp only [tileIds, leafId, List.mem_singleton] at h
    simp [removeFromTile, leafId, Ne.symm h]
  | split d l r ihl ihr =>
    simp only [tileIds, List.mem_append] at h
    push_neg at h
    simp only [removeFromTile, ihl h.1, ihr h.2]

theorem findInTile_not_mem (t : TileNode) (tid : String)
    (h : tid ∉ tileIds t) : findInTile t tid = none := by
  induction t with
  | term s =>
    simp only [tileIds, leafId, List.mem_singleton] at h
    simp [findInTile, leafId, Ne.symm h]
  | editor s =>
    simp only [tileIds, leafId, List.mem_singleton] at h
    simp [findInTile, leafId, Ne.symm h]
  | split d l r ihl ihr =>
    simp only [tileIds, List.mem_append] at h
    push_neg at h
    simp only [findInTile, ihl h.1, ihr h.2]

theorem findInTile_mem (t : TileNode) (tid : String) (h : tid ∈ tileIds t) :
    ∃ n, findInTile t tid = some n ∧ leafId n = some tid := by
  induction t with
  | term s =>
    simp only [tileIds, leafId, List.mem_singleton] at h
    exact ⟨.term s, by simp [findInTile, leafId, h], by simp [leafId, h]⟩
  | editor s =>
    simp only [tileIds, leafId, List.mem_singleton] at h
    exact ⟨.editor s, by simp [findInTile, leafId, h], by simp [leafId, h]⟩
  | split d l r ihl ihr =>
    simp only [tileIds, List.mem_append] at h
    by_cases hl : tid ∈ tileIds l
    · obtain ⟨n, hn, hid⟩ := ihl hl
      exact ⟨n, by simp [findInTile, hn], hid⟩
    · obtain ⟨n, hn, hid⟩ := ihr (h.resolve_left hl)
      exact ⟨n, by simp [findInTile, findInTile_not_mem l tid hl, hn], hid⟩

/-- Core of the split/remove round trip: replacing the unique target leaf by a split
of itself with a fresh leaf, then removing the fresh leaf, restores the tree. -/
theorem remove_replace_split (t : TileNode) (targetId nid : String) (newLeaf tn : TileNode)
    (d : TileDirection) (hnodup : (tileIds t).Nodup) (hmem : targetId ∈ tileIds t)
    (hfind : findInTile t targetId = some tn)
    (hleaf : leafId newLeaf = some nid) (hfresh : nid ∉ tileIds t) :
    removeFromTile (replaceInTile t targetId (.split d tn newLeaf)) nid = some t := by
  induction t with
  | term s =>
    simp only [tileIds, leafId, List.mem_singleton] at hmem hfresh
    subst hmem
    simp only [findInTile, leafId] at hfind
    simp only [if_true, Option.some.injEq] at hfind
    subst hfind
    simp [replaceInTile, leafId, removeFromTile,
      removeFromTile_self newLeaf nid hleaf, Ne.symm hfresh]
  | editor s =>
    simp only [tileIds, leafId, List.mem_singleton] at hmem hfresh
    subst hmem
    simp only [findInTile, leafId] at hfind
    simp only [if_true, Option.some.injEq] at hfind
    subst hfind
    simp [replaceInTile, leafId, removeFromTile,
      removeFromTile_self newLeaf nid hleaf, Ne.symm hfresh]
  | split dd l r ihl ihr =>
    simp only [tileIds, List.mem_append] at hmem hfresh
    push_neg at hfresh
    have hnd := (List.nodup_append.mp (by simpa [tileIds] using hnodup))
    simp only [findInTile] at hfind
    by_cases hl : targetId ∈ tileIds l
    · have hr : targetId ∉ tileIds r := fun hr => (hnd.2.2 hl hr)
      obtain ⟨n, hn, -⟩ := findInTile_mem l targetId hl
      rw [hn] at hfind
      simp only [Option.some.injEq] at hfind
      subst hfind
      simp only [replaceInTile, replaceInTile_not_mem r targetId _ hr, removeFromTile,
        ihl hnd.1 hl hn hfresh.1, removeFromTile_not_mem r nid hfresh.2]
    · have hr : targetId ∈ tileIds r := hmem.resolve_left hl
      rw [findInTile_not_mem l targetId hl] at hfind
      simp only [replaceInTile, replaceInTile_not_mem l targetId _ hl, removeFromTile,
        ihr hnd.2.1 hr hfind hfresh.2, removeFromTile_not_mem l nid hfresh.1]

/-- C6: removing the fresh leaf added by `splitAtTileWithPlacement` (placement
after, either direction) restores the original tree, for a target id present in
the tree, a fresh leaf id absent from it, and unique leaf ids. -/
theorem claim_C6 (t : TileNode) (targetId : String) (newLeaf : TileNode) (nid : String)
    (d : TileDirection) (hnodup : (tileIds t).Nodup) (hmem : targetId ∈ tileIds t)
    (hleaf : leafId newLeaf = some nid) (hfresh : nid ∉ tileIds t) :
    removeFromTile (splitAtTileWithPlacement t targetId newLeaf d .after) nid = some t := by
  obtain ⟨tn, hfind, -⟩ := findInTile_mem t targetId hmem
  unfold splitAtTileWithPlacement
  rw [hfind]
  exact remove_replace_split t targetId nid newLeaf tn d hnodup hmem hfind hleaf hfresh

/-- Witness for C6 at a concrete tree, target and fresh leaf. -/
theorem claim_C6_witness :
    removeFromTile
      (splitAtTileWithPlacement
        (.split .horizontal (.term "a") (.editor "b")) "a" (.term "c")
        .vertical .after) "c"
      = some (.split .horizontal (.term "a") (.editor "b")) :=
  claim_C6 (.split .horizontal (.term "a") (.editor "b")) "a" (.term "c") "c"
    .vertical (by decide) (by decide) (by decide) (by decide)

/-! Section: swapTiles (C7) -/

/-- Whether a node is a split. -/
def TileNode.isSplit : TileNode → Bool
  | .split _ _ _ => true
  | _ => false

/-- Map a function over the leaves of a tree, keeping the split structure.
Device used to state what `swapTiles` does to each leaf position. -/
def mapLeaf (f : TileNode → TileNode) : TileNode → TileNode
  | .split d l r => .split d (mapLeaf f l) (mapLeaf f r)
  | node => f node

/-- Modelled from the spec: `swap` exchanges the two named leaves and leaves
every other leaf unchanged. -/
def swapFun (idA idB : String) (nodeA nodeB : TileNode) (node : TileNode) : TileNode :=
  if leafId node = some idA then nodeB
  else if leafId node = some idB then nodeA
  else node

/-- The leaf nodes of a tree, left to right. -/
def leavesOf : TileNode → List TileNode
  | .split _ l r => leavesOf l ++ leavesOf r
  | node => [node]

theorem leafId_some_not_isSplit (n : TileNode) (x : String) (h : leafId n = some x) :
    n.isSplit = false := by
  cases n <;> simp_all [leafId, TileNode.isSplit]

theorem mapLeaf_nonsplit (f : TileNode → TileNode) (u : TileNode)
    (h : u.isSplit = false) : mapLeaf f u = f u := by
  cases u <;> simp_all [mapLeaf, TileNode.isSplit]

theorem leavesOf_mem_leafId (t n : TileNode) (h : n ∈ leavesOf t) :
    ∃ x, leafId n = some x ∧ x ∈ tileIds t := by
  induction t with
  | term s =>
    simp only [leavesOf, List.mem_singleton] at h
    subst h
    exact ⟨s, rfl, by simp [tileIds, leafId]⟩
  | editor s =>
    simp only [leavesOf, List.mem_singleton] at h
    subst h
    exact ⟨s, rfl, by simp [tileIds, leafId]⟩
  | split d l r ihl ihr =>
    simp only [leavesOf, List.mem_append] at h
    rcases h with h | h
    · obtain ⟨x, h1, h2⟩ := ihl h
      exact ⟨x, h1, by simp [tileIds, h2]⟩
    · obtain ⟨x, h1, h2⟩ := ihr h
      exact ⟨x, h1, by simp [tileIds, h2]⟩

theorem findInTile_some (t : TileNode) (x : String) (n : TileNode)
    (h : findInTile t x = some n) : leafId n = some x ∧ x ∈ tileIds t := by
  induction t with
  | term s =>
    simp only [findInTile, leafId] at h
    by_cases hs : s = x
    · subst hs
      simp at h
      subst h
      exact ⟨rfl, by simp [tileIds, leafId]⟩
    · simp [hs] at h
  | editor s =>
    simp only [findInTile, leafId] at h
    by_cases hs : s = x
    · subst hs
      simp at h
      subst h
      exact ⟨rfl, by simp [tileIds, leafId]⟩
    · simp [hs] at h
  | split d l r ihl ihr =>
    simp only [findInTile] at h
    cases hfl : findInTile l x with
    | some m =>
      rw [hfl] at h
      simp only [Option.some.injEq] at h
      subst h
      obtain ⟨h1, h2⟩ := ihl hfl
      exact ⟨h1, by simp [tileIds, h2]⟩
    | none =>
      rw [hfl] at h
      obtain ⟨h1, h2⟩ := ihr h
      exact ⟨h1, by simp [tileIds, h2]⟩

/-- With unique leaf ids, `findInTile` locates any given leaf of the tree. -/
theorem findInTile_of_mem_leaves (t n : TileNode) (x : String)
    (hnodup : (tileIds t).Nodup) (hmem : n ∈ leavesOf t) (hid : leafId n = some x) :
    findInTile t x = some n := by
  induction t with
  | term s =>
    simp only [leavesOf, List.mem_singleton] at hmem
    subst hmem
    simp only [leafId, Option.some.injEq] at hid
    subst hid
    simp [findInTile, leafId]
  | editor s =>
    simp only [leavesOf, List.mem_singleton] at hmem
    subst hmem
    simp only [leafId, Option.some.injEq] at hid
    subst hid
    simp [findInTile, leafId]
  | split d l r ihl ihr =>
    have hnd := List.nodup_append.mp (by simpa [tileIds] using hnodup)
    simp only [leavesOf, List.mem_append] at hmem
    rcases hmem with hm | hm
    · simp [findInTile, ihl hnd.1 hm]
    · have hxr : x ∈ tileIds r := by
        obtain ⟨y, hy1, hy2⟩ := leavesOf_mem_leafId r n hm
        rw [hid] at hy1
        exact (Option.some.injEq _ _ ▸ hy1 : x = y) ▸ hy2
      have hxl : x ∉ tileIds l := fun hc => hnd.2.2 hc hxr
      simp [findInTile, findInTile_not_mem l x hxl, ihr hnd.2.1 hm]

theorem replaceInTile_eq_mapLeaf (t : TileNode) (tid : String) (rep : TileNode) :
    replaceInTile t tid rep = mapLeaf (fun n => if leafId n = some tid then rep else n) t := by
  induction t with
  | term s => simp [replaceInTile, mapLeaf]
  | editor s => simp [replaceInTile, mapLeaf]
  | split d l r ihl ihr => simp [replaceInTile, mapLeaf, ihl, ihr]

theorem mapLeaf_comp (f g : TileNode → TileNode) (t : TileNode)
    (hf : ∀ n, n.isSplit = false → (f n).isSplit = false) :
    mapLeaf g (mapLeaf f t) = mapLeaf (fun n => g (f n)) t := by
  induction t with
  | term s =>
    simp only [mapLeaf]
    exact mapLeaf_nonsplit g _ (hf _ rfl)
  | editor s =>
    simp only [mapLeaf]
    exact mapLeaf_nonsplit g _ (hf _ rfl)
  | split d l r ihl ihr => simp [mapLeaf, ihl, ihr]

theorem mapLeaf_congr (f g : TileNode → TileNode) (t : TileNode)
    (h : ∀ n ∈ leavesOf t, f n = g n) : mapLeaf f t = mapLeaf g t := by
  induction t with
  | term s => exact h _ (by simp [leavesOf])
  | editor s => exact h _ (by simp [leavesOf])
  | split d l r ihl ihr =>
    simp only [mapLeaf, TileNode.split.injEq]
    refine ⟨trivial, ihl ?_, ihr ?_⟩
    · exact fun n hn => h n (by simp [leavesOf, hn])
    · exact fun n hn => h n (by simp [leavesOf, hn])

theorem mapLeaf_id_eq (f : TileNode → TileNode) (t : TileNode)
    (h : ∀ n ∈ leavesOf t, f n = n) : mapLeaf f t = t := by
  induction t with
  | term s => exact h _ (by simp [leavesOf])
  | editor s => exact h _ (by simp [leavesOf])
  | split d l r ihl ihr =>
    simp only [mapLeaf, TileNode.split.injEq]
    refine ⟨trivial, ihl ?_, ihr ?_⟩
    · exact fun n hn => h n (by simp [leavesOf, hn])
    · exact fun n hn => h n (by simp [leavesOf, hn])

theorem tileIds_leaf (n : TileNode) (x : String) (h : leafId n = some x) :
    tileIds n = [x] := by
  cases n <;> simp_all [tileIds, leafId]

theorem leavesOf_nonsplit (u : TileNode) (h : u.isSplit = false) :
    leavesOf u = [u] := by
  cases u <;> simp_all [leavesOf, TileNode.isSplit]

theorem leavesOf_mapLeaf (f : TileNode → TileNode) (t : TileNode)
    (hf : ∀ n, n.isSplit = false → (f n).isSplit = false) :
    leavesOf (mapLeaf f t) = (leavesOf t).map f := by
  induction t with
  | term s =>
    simp only [mapLeaf, leavesOf, List.map]
    exact leavesOf_nonsplit _ (hf _ rfl)
  | editor s =>
    simp only [mapLeaf, leavesOf, List.map]
    exact leavesOf_nonsplit _ (hf _ rfl)
  | split d l r ihl ihr => simp [mapLeaf, leavesOf, ihl, ihr]

theorem findInTile_mem_leaves (t : TileNode) (x : String) (n : TileNode)
    (h : findInTile t x = some n) : n ∈ leavesOf t := by
  induction t with
  | term s =>
    simp only [findInTile] at h
    by_cases hs : leafId (TileNode.term s) = some x
    · rw [if_pos hs] at h
      simp only [Option.some.injEq] at h
      subst h
      simp [leavesOf]
    · rw [if_neg hs] at h
      exact absurd h (by simp)
  | editor s =>
    simp only [findInTile] at h
    by_cases hs : leafId (TileNode.editor s) = some x
    · rw [if_pos hs] at h
      simp only [Option.some.injEq] at h
      subst h
      simp [leavesOf]
    · rw [if_neg hs] at h
      exact absurd h (by simp)
  | split d l r ihl ihr =>
    simp only [findInTile] at h
    cases hfl : findInTile l x with
    | some m =>
      rw [hfl] at h
      simp only [Option.some.injEq] at h
      subst h
      simp [leavesOf, ihl hfl]
    | none =>
      rw [hfl] at h
      simp [leavesOf, ihr h]

theorem swapFun_nonsplit (a b : String) (nodeA nodeB : TileNode)
    (ha : leafId nodeA = some a) (hb : leafId nodeB = some b) :
    ∀ n, n.isSplit = false → (swapFun a b nodeA nodeB n).isSplit = false := by
  intro n hn
  unfold swapFun
  split_ifs
  · exact leafId_some_not_isSplit nodeB b hb
  · exact leafId_some_not_isSplit nodeA a ha
  · exact hn

/-- The `swapTiles` on a placeholder-free tree acts leafwise as `swapFun`. -/
theorem swapTiles_eq_mapLeaf (t : TileNode) (a b : String) (nodeA nodeB : TileNode)
    (hA : findInTile t a = some nodeA) (hB : findInTile t b = some nodeB)
    (hph : "__swap_placeholder__" ∉ tileIds t) :
    swapTiles t a b = mapLeaf (swapFun a b nodeA nodeB) t := by
  have hidA := (findInTile_some t a nodeA hA).1
  have hmemA := (findInTile_some t a nodeA hA).2
  have hidB := (findInTile_some t b nodeB hB).1
  have hmemB := (findInTile_some t b nodeB hB).2
  have haph : a ≠ "__swap_placeholder__" := fun hc => hph (hc ▸ hmemA)
  have hbph : b ≠ "__swap_placeholder__" := fun hc => hph (hc ▸ hmemB)
  have hf1 : ∀ n : TileNode, n.isSplit = false →
      (TileNode.isSplit (if leafId n = some a then swapPlaceholder else n)) = false := by
    intro n hn
    split_ifs
    · rfl
    · exact hn
  have hf21 : ∀ n : TileNode, n.isSplit = false →
      (TileNode.isSplit (if leafId (if leafId n = some a then swapPlaceholder else n) = some b
        then nodeA else (if leafId n = some a then swapPlaceholder else n))) = false := by
    intro n hn
    split_ifs
    all_goals first
      | exact leafId_some_not_isSplit nodeA a hidA
      | rfl
      | exact hn
  have hsw : swapTiles t a b
      = replaceInTile (replaceInTile (replaceInTile t a swapPlaceholder) b nodeA)
          "__swap_placeholder__" nodeB := by
    unfold swapTiles
    rw [hA, hB]
  rw [hsw, replaceInTile_eq_mapLeaf, replaceInTile_eq_mapLeaf, replaceInTile_eq_mapLeaf,
    mapLeaf_comp (fun n => if leafId n = some a then swapPlaceholder else n)
      (fun n => if leafId n = some b then nodeA else n) t hf1,
    mapLeaf_comp
      (fun n => (if leafId (if leafId n = some a then swapPlaceholder else n) = some b
        then nodeA else (if leafId n = some a then swapPlaceholder else n)))
      (fun n => if leafId n = some "__swap_placeholder__" then nodeB else n) t hf21]
  apply mapLeaf_congr
  intro n hn
  dsimp only
  obtain ⟨x, hx, hxmem⟩ := leavesOf_mem_leafId t n hn
  have hxph : x ≠ "__swap_placeholder__" := fun hc => hph (hc ▸ hxmem)
  by_cases h1 : leafId n = some a
  · simp only [swapFun, h1]
    simp [swapPlaceholder, leafId, Ne.symm hbph]
  · by_cases h2 : leafId n = some b
    · have hba : ¬ (b = a) := fun hc => h1 (by rw [h2, hc])
      simp [swapFun, h2, hba, hidA, haph]
    · have hxa : ¬ (x = a) := fun hc => h1 (by rw [hx, hc])
      have hxb : ¬ (x = b) := fun hc => h2 (by rw [hx, hc])
      simp [swapFun, hx, hxa, hxb, hxph]

/-- Leaf ids after a leafwise swap: `a` and `b` are exchanged. -/
theorem tileIds_mapLeaf_swap (t : TileNode) (a b : String) (nodeA nodeB : TileNode)
    (hidA : leafId nodeA = some a) (hidB : leafId nodeB = some b) :
    tileIds (mapLeaf (swapFun a b nodeA nodeB) t)
      = (tileIds t).map (fun x => if x = a then b else (if x = b then a else x)) := by
  induction t with
  | term s =>
    simp only [mapLeaf, swapFun, leafId, tileIds, List.map]
    by_cases h1 : s = a
    · subst h1
      simp [tileIds_leaf nodeB b hidB]
    · by_cases h2 : s = b
      · subst h2
        simp [h1, tileIds_leaf nodeA a hidA]
      · simp [h1, h2, tileIds, leafId]
  | editor s =>
    simp only [mapLeaf, swapFun, leafId, tileIds, List.map]
    by_cases h1 : s = a
    · subst h1
      simp [tileIds_leaf nodeB b hidB]
    · by_cases h2 : s = b
      · subst h2
        simp [h1, tileIds_leaf nodeA a hidA]
      · simp [h1, h2, tileIds, leafId]
  | split d l r ihl ihr => simp [mapLeaf, tileIds, ihl, ihr]

/-- With unique, placeholder-free leaf ids, `swapTiles` is an involution. -/
theorem swapTiles_involution (t : TileNode) (a b : String)
    (hnodup : (tileIds t).Nodup) (hph : "__swap_placeholder__" ∉ tileIds t) :
    swapTiles (swapTiles t a b) a b = t := by
  cases hA : findInTile t a with
  | none =>
    have h0 : swapTiles t a b = t := by
      unfold swapTiles
      rw [hA]
    rw [h0, h0]
  | some nodeA =>
    cases hB : findInTile t b with
    | none =>
      have h0 : swapTiles t a b = t := by
        unfold swapTiles
        rw [hA, hB]
      rw [h0, h0]
    | some nodeB =>
      have hidA := (findInTile_some t a nodeA hA).1
      have hmemA := (findInTile_some t a nodeA hA).2
      have hidB := (findInTile_some t b nodeB hB).1
      have hmemB := (findInTile_some t b nodeB hB).2
      have haph : a ≠ "__swap_placeholder__" := fun hc => hph (hc ▸ hmemA)
      have hbph : b ≠ "__swap_placeholder__" := fun hc => hph (hc ▸ hmemB)
      have hAleaf : nodeA ∈ leavesOf t := findInTile_mem_leaves t a nodeA hA
      have hBleaf : nodeB ∈ leavesOf t := findInTile_mem_leaves t b nodeB hB
      set f := swapFun a b nodeA nodeB with hf
      have hfns : ∀ n, TileNode.isSplit n = false → TileNode.isSplit (f n) = false :=
        swapFun_nonsplit a b nodeA nodeB hidA hidB
      have hs1 : swapTiles t a b = mapLeaf f t :=
        swapTiles_eq_mapLeaf t a b nodeA nodeB hA hB hph
      have hids : tileIds (mapLeaf f t)
          = (tileIds t).map (fun x => if x = a then b else (if x = b then a else x)) :=
        tileIds_mapLeaf_swap t a b nodeA nodeB hidA hidB
      have hinj : Function.Injective
          (fun x : String => if x = a then b else (if x = b then a else x)) := by
        have hinv : Function.Involutive
            (fun x : String => if x = a then b else (if x = b then a else x)) := by
          intro x
          dsimp only
          split_ifs <;> simp_all
        exact hinv.injective
      have hnodup2 : (tileIds (mapLeaf f t)).Nodup := by
        rw [hids]
        exact hnodup.map hinj
      have hph2 : "__swap_placeholder__" ∉ tileIds (mapLeaf f t) := by
        rw [hids]
        intro hc
        obtain ⟨x, hx1, hx2⟩ := List.mem_map.mp hc
        by_cases h1 : x = a
        · rw [if_pos h1] at hx2
          exact hbph hx2
        · by_cases h2 : x = b
          · rw [if_neg h1, if_pos h2] at hx2
            exact haph hx2
          · rw [if_neg h1, if_neg h2] at hx2
            exact hph (hx2 ▸ hx1)
      have hfB : f nodeB = nodeA := by
        by_cases hab : a = b
        · subst hab
          rw [hA] at hB
          have hEq : nodeA = nodeB := by simpa using hB
          subst hEq
          simp [hf, swapFun, hidA]
        · rw [hf]
          unfold swapFun
          rw [hidB, if_neg (by simpa using Ne.symm hab), if_pos rfl]
      have hfA : f nodeA = nodeB := by
        rw [hf]
        simp [swapFun, hidA]
      have hfindA2 : findInTile (mapLeaf f t) a = some nodeA := by
        apply findInTile_of_mem_leaves _ _ _ hnodup2 _ hidA
        rw [leavesOf_mapLeaf f t hfns]
        exact List.mem_map.mpr ⟨nodeB, hBleaf, hfB⟩
      have hfindB2 : findInTile (mapLeaf f t) b = some nodeB := by
        apply findInTile_of_mem_leaves _ _ _ hnodup2 _ hidB
        rw [leavesOf_mapLeaf f t hfns]
        exact List.mem_map.mpr ⟨nodeA, hAleaf, hfA⟩
      have hs2 : swapTiles (mapLeaf f t) a b = mapLeaf f (mapLeaf f t) :=
        swapTiles_eq_mapLeaf (mapLeaf f t) a b nodeA nodeB hfindA2 hfindB2 hph2
      rw [hs1, hs2, mapLeaf_comp f f t hfns]
      apply mapLeaf_id_eq
      intro n hn
      dsimp only
      obtain ⟨x, hx, hxmem⟩ := leavesOf_mem_leafId t n hn
      by_cases h1 : leafId n = some a
      · have hfn : findInTile t a = some n := findInTile_of_mem_leaves t n a hnodup hn h1
        rw [hA] at hfn
        have hnA : nodeA = n := by simpa using hfn
        have e1 : f n = nodeB := by
          rw [hf]
          simp [swapFun, h1]
        rw [e1, hfB]
        exact hnA
      · by_cases h2 : leafId n = some b
        · have hfn : findInTile t b = some n := findInTile_of_mem_leaves t n b hnodup hn h2
          rw [hB] at hfn
          have hnB : nodeB = n := by simpa using hfn
          have e1 : f n = nodeA := by
            rw [hf]
            have hba : ¬ (b = a) := fun hc => h1 (by rw [h2, hc])
            simp [swapFun, h1, h2, hba]
          rw [e1, hfA]
          exact hnB
        · have e1 : f n = n := by
            rw [hf]
            simp [swapFun, h1, h2]
          rw [e1, e1]

/-- C7 counterexample: as stated over all trees and id pairs, `swapTiles` is not
an involution. A tree containing a leaf with the reserved id
`__swap_placeholder__`, and a tree with two leaves sharing an id, each break
`swap(swap(tree,a,b),a,b) == tree`. -/
theorem claim_C7_counterexample :
    swapTiles (swapTiles (.split .horizontal (.term "a")
        (.split .vertical (.term "b") (.term "__swap_placeholder__"))) "a" "b") "a" "b"
      ≠ TileNode.split .horizontal (.term "a")
        (.split .vertical (.term "b") (.term "__swap_placeholder__")) ∧
    swapTiles (swapTiles (.split .horizontal (.term "a")
        (.split .vertical (.editor "a") (.term "b"))) "a" "b") "a" "b"
      ≠ TileNode.split .horizontal (.term "a")
        (.split .vertical (.editor "a") (.term "b")) := by
  constructor <;> decide

/-- C7 (amended): for trees whose leaf ids are unique and in which no leaf uses
the reserved placeholder id, `swapTiles` (1) is the identity when either id is
absent, (2) exchanges the two named leaves leaving every other leaf unchanged
(it acts leafwise as `swapFun`), and (3) is its own inverse. -/
theorem claim_C7 (t : TileNode) (a b : String) :
    ((findInTile t a = none ∨ findInTile t b = none) → swapTiles t a b = t) ∧
    (∀ nodeA nodeB, findInTile t a = some nodeA → findInTile t b = some nodeB →
      "__swap_placeholder__" ∉ tileIds t →
      swapTiles t a b = mapLeaf (swapFun a b nodeA nodeB) t) ∧
    ((tileIds t).Nodup → "__swap_placeholder__" ∉ tileIds t →
      swapTiles (swapTiles t a b) a b = t) := by
  refine ⟨?_, ?_, ?_⟩
  · intro h
    rcases h with h | h
    · unfold swapTiles
      rw [h]
    · unfold swapTiles
      rw [h]
      cases findInTile t a <;> rfl
  · intro nodeA nodeB hA hB hph
    exact swapTiles_eq_mapLeaf t a b nodeA nodeB hA hB hph
  · intro hnodup hph
    exact swapTiles_involution t a b hnodup hph

/-- Witness for C7 at a concrete tree and id pair. -/
theorem claim_C7_witness :
    swapTiles (swapTiles (.split .horizontal (.term "x") (.term "y")) "x" "y") "x" "y"
      = TileNode.split .horizontal (.term "x") (.term "y") :=
  (claim_C7 (.split .horizontal (.term "x") (.term "y")) "x" "y").2.2
    (by decide) (by decide)

/-! Section: Pane/tab orchestrator (App.tsx)

Each UI handler is embedded as the pure state update it applies to the active
workspace; `crypto.randomUUID()` results are passed in as explicit arguments. -/

structure OpenFile where
  path : String
  content : String
deriving DecidableEq

structure EditorTabState where
  id : String
  file : OpenFile
  pinned : Bool
deriving DecidableEq

structure EditorPaneState where
  tabs : List EditorTabState
  activeTabId : String
deriving DecidableEq

structure TerminalTabInfo where
  id : String
  label : String
deriving DecidableEq

structure TerminalPaneState where
  tabs : List TerminalTabInfo
  activeTabId : String
deriving DecidableEq

structure WorkspaceState where
  openFiles : List (String × EditorPaneState)
  terminalPanes : List (String × TerminalPaneState)
  cwd : String
  terminals : List TerminalTabInfo
  layout : TileNode
  activePaneId : String
deriving DecidableEq

/-- JS record lookup `obj[k]` (keys are unique). -/
def recordGet {A : Type} (r : List (String × A)) (k : String) : Option A :=
  match r with
  | [] => none
  | (k2, v) :: rest => if k2 = k then some v else recordGet rest k

/-- JS spread update `{...obj, [k]: v}`: replaces the key in place, else appends. -/
def recordSet {A : Type} (r : List (String × A)) (k : String) (v : A) : List (String × A) :=
  match r with
  | [] => [(k, v)]
  | (k2, v2) :: rest => if k2 = k then (k2, v) :: rest else (k2, v2) :: recordSet rest k v

/-- JS `delete obj[k]` (keys are unique). -/
def recordDelete {A : Type} (r : List (String × A)) (k : String) : List (String × A) :=
  match r with
  | [] => []
  | (k2, v2) :: rest => if k2 = k then rest else (k2, v2) :: recordDelete rest k

/-- The `xs[0] || dflt`: the head, unless the list is empty or the head is the
falsy empty string. -/
def jsHeadOr (xs : List String) (dflt : String) : String :=
  match xs with
  | [] => dflt
  | x :: _ => if x = "" then dflt else x

/-- The `tabs[Math.max(0, i)]?.id || tabs[0].id` (callers guarantee `tabs` nonempty). -/
def jsActiveAfterRemoval (tabs : List EditorTabState) (i : Nat) : String :=
  let first := match tabs with
    | [] => ""
    | tab :: _ => tab.id
  match tabs.get? i with
  | some tab => if tab.id = "" then first else tab.id
  | none => first

/-- The `createTerminalSession(terminals)` with the generated uuid supplied. -/
def createTerminalSession (terminals : List TerminalTabInfo) (uuid : String) :
    TerminalTabInfo :=
  { id := uuid, label := "T" ++ toString (terminals.length + 1) }

/-- The workspace built by `createWorkspace` (uuids supplied). -/
def createWorkspace (u1 u2 : String) (cwd : String) : WorkspaceState :=
  let termPaneId := "terminal::" ++ u1
  let firstTerminal := createTerminalSession [] u2
  { openFiles := []
    terminalPanes := [(termPaneId, { tabs := [firstTerminal], activeTabId := firstTerminal.id })]
    cwd := cwd
    terminals := [firstTerminal]
    layout := .term termPaneId
    activePaneId := termPaneId }

/-- The `handleClosePane(paneId)` applied to the active workspace. -/
def handleClosePane (w : WorkspaceState) (paneId : String) : WorkspaceState :=
  match removeFromTile w.layout paneId with
  | none => w
  | some newLayout =>
    let node := findInTile w.layout paneId
    let newOpenFiles :=
      match node with
      | some (.editor fp) => recordDelete w.openFiles fp
      | _ => w.openFiles
    let newTerminalPanes :=
      match node with
      | some (.term tid) => recordDelete w.terminalPanes tid
      | _ => w.terminalPanes
    let newTerminals :=
      match node with
      | some (.term tid) =>
        let paneTabs : List TerminalTabInfo :=
          match recordGet w.terminalPanes tid with
          | some pane => pane.tabs
          | none => []
        let tabIds := paneTabs.map (fun tab => tab.id)
        w.terminals.filter (fun tab => !(tabIds.contains tab.id))
      | _ => w.terminals
    let newActivePaneId :=
      if w.activePaneId = paneId then jsHeadOr (getAllLeafIds newLayout) w.activePaneId
      else w.activePaneId
    { w with
        openFiles := newOpenFiles
        terminalPanes := newTerminalPanes
        terminals := newTerminals
        layout := newLayout
        activePaneId := newActivePaneId }

theorem getAllLeafIds_ne_empty (t : TileNode) (x : String) (h : x ∈ getAllLeafIds t) :
    x ≠ "" := by
  induction t with
  | term s =>
    simp only [getAllLeafIds, leafId] at h
    by_cases hs : s = ""
    · simp [hs] at h
    · simp [hs] at h
      exact h ▸ hs
  | editor s =>
    simp only [getAllLeafIds, leafId] at h
    by_cases hs : s = ""
    · simp [hs] at h
    · simp [hs] at h
      exact h ▸ hs
  | split d l r ihl ihr =>
    simp only [getAllLeafIds, List.mem_append] at h
    rcases h with h | h
    · exact ihl h
    · exact ihr h

/-- C8: closing the sole pane leaves the workspace unchanged; closing one of two
sibling panes promotes the surviving sibling subtree to be the whole tree; if
the closed pane was active, focus moves to the first leaf of the remaining tree
in depth-first order. -/
theorem claim_C8 (w : WorkspaceState) (paneId : String) :
    (leafId w.layout = some paneId → handleClosePane w paneId = w) ∧
    (∀ d A B, w.layout = .split d A B →
      (leafId A = some paneId → paneId ∉ tileIds B →
        (handleClosePane w paneId).layout = B) ∧
      (leafId B = some paneId → paneId ∉ tileIds A →
        (handleClosePane w paneId).layout = A)) ∧
    (∀ L x xs, w.activePaneId = paneId → removeFromTile w.layout paneId = some L →
      getAllLeafIds L = x :: xs → (handleClosePane w paneId).activePaneId = x) := by
  refine ⟨?_, ?_, ?_⟩
  · intro h
    unfold handleClosePane
    rw [removeFromTile_self w.layout paneId h]
  · intro d A B hlay
    constructor
    · intro hA hB
      unfold handleClosePane
      rw [hlay]
      simp only [removeFromTile, removeFromTile_self A paneId hA,
        removeFromTile_not_mem B paneId hB]
    · intro hB hA
      unfold handleClosePane
      rw [hlay]
      simp only [removeFromTile, removeFromTile_self B paneId hB,
        removeFromTile_not_mem A paneId hA]
  · intro L x xs hact hrem hlist
    unfold handleClosePane
    rw [hrem]
    have hxne := getAllLeafIds_ne_empty L x (by rw [hlist]; exact List.mem_cons_self x xs)
    simp [hact, hlist, jsHeadOr, hxne]

/-- Witness for C8 at a concrete workspace. -/
theorem claim_C8_witness :
    (handleClosePane
      { openFiles := [], terminalPanes := [], cwd := ".", terminals := [], layout := .term "t1", activePaneId := "t1" } "t1")
      = { openFiles := [], terminalPanes := [], cwd := ".", terminals := [], layout := .term "t1", activePaneId := "t1" } :=
  (claim_C8 { openFiles := [], terminalPanes := [], cwd := ".", terminals := [], layout := .term "t1", activePaneId := "t1" } "t1").1 (by decide)

/-! Section: file open, split, move and drop handlers (C9) -/

/-- Target-pane choice of `handleFileSelect`: the active pane when it is an
editor pane (with the JS truthiness test on the id), else the first editor pane
of the tree in depth-first order. -/
def fileSelectTargetPaneId (w : WorkspaceState) : Option String :=
  let activeNode := findInTile w.layout w.activePaneId
  let targetPane0 : Option String :=
    match activeNode with
    | some (.editor fp) => if fp = "" then none else some fp
    | _ => none
  match targetPane0 with
  | some tp => some tp
  | none =>
    (getAllLeafIds w.layout).find? (fun i =>
      match findInTile w.layout i with
      | some (.editor _) => true
      | _ => false)

/-- The `tabs` refresh of `handleFileSelect`: same-path tabs get the newly
fetched file content. -/
def fileSelectTabs0 (pane : EditorPaneState) (filePath : String) (data : OpenFile) :
    List EditorTabState :=
  pane.tabs.map (fun tab =>
    if tab.file.path == filePath then { tab with file := data } else tab)

/-- The `handleFileSelect(filePath, {pinned})` applied to the active workspace,
with the fetched file `data` and the generated uuids supplied. -/
def handleFileSelect (w : WorkspaceState) (filePath : String) (pinned : Bool)
    (data : OpenFile) (u1 u2 : String) : WorkspaceState :=
  match fileSelectTargetPaneId w with
  | none =>
    let newEditorPaneId := "editor::" ++ u1
    let newTabId := if pinned then data.path ++ "::" ++ u2 else "preview::" ++ u2
    let newLayout := splitAtTile w.layout w.activePaneId (.editor newEditorPaneId) .horizontal
    { w with
        openFiles := recordSet w.openFiles newEditorPaneId
          { tabs := [{ id := newTabId, file := data, pinned := pinned }], activeTabId := newTabId }
        layout := newLayout
        activePaneId := newEditorPaneId }
  | some tgt =>
    match recordGet w.openFiles tgt with
    | none => w
    | some pane =>
      match (fileSelectTabs0 pane filePath data).find? (fun tab => tab.file.path == filePath) with
      | some existingTab =>
        let tabs1 :=
          if pinned && !existingTab.pinned then
            (fileSelectTabs0 pane filePath data).map (fun tab =>
              if tab.id == existingTab.id then { tab with pinned := true } else tab)
          else fileSelectTabs0 pane filePath data
        { w with
            openFiles := recordSet w.openFiles tgt { tabs := tabs1, activeTabId := existingTab.id }
            activePaneId := tgt }
      | none =>
        if pinned then
          let tabId := data.path ++ "::" ++ u2
          let tabs1 := fileSelectTabs0 pane filePath data ++ [{ id := tabId, file := data, pinned := true }]
          { w with
              openFiles := recordSet w.openFiles tgt { tabs := tabs1, activeTabId := tabId }
              activePaneId := tgt }
        else
          match (fileSelectTabs0 pane filePath data).find? (fun tab => !tab.pinned) with
          | some previewTab =>
            let tabs1 := (fileSelectTabs0 pane filePath data).map (fun tab =>
              if tab.id == previewTab.id then { tab with file := data } else tab)
            { w with
                openFiles := recordSet w.openFiles tgt { tabs := tabs1, activeTabId := previewTab.id }
                activePaneId := tgt }
          | none =>
            let tabId := "preview::" ++ u2
            let tabs1 := fileSelectTabs0 pane filePath data ++ [{ id := tabId, file := data, pinned := false }]
            { w with
                openFiles := recordSet w.openFiles tgt { tabs := tabs1, activeTabId := tabId }
                activePaneId := tgt }

/-- The `pane.tabs.find(tab => tab.id === activeTabId) || pane.tabs[0]`. -/
def jsFindOrHead (tabs : List EditorTabState) (activeId : String) : Option EditorTabState :=
  match tabs.find? (fun tab => tab.id == activeId) with
  | some tab => some tab
  | none => tabs.head?

/-- The `handleSplitPane(paneId, direction)` (uuids supplied). A split node can never
be returned by `findInTile`, so that branch never runs; the JS would read an
undefined field there, modelled as a no-op. -/
def handleSplitPane (w : WorkspaceState) (paneId : String) (direction : TileDirection)
    (u1 u2 : String) : WorkspaceState :=
  match findInTile w.layout paneId with
  | none => w
  | some (.term _) =>
    let newPaneId := "terminal::" ++ u1
    let newTerminal := createTerminalSession w.terminals u2
    let newLayout := splitAtTile w.layout paneId (.term newPaneId) direction
    { w with
        terminals := w.terminals ++ [newTerminal]
        terminalPanes := recordSet w.terminalPanes newPaneId
          { tabs := [newTerminal], activeTabId := newTerminal.id }
        layout := newLayout
        activePaneId := newPaneId }
  | some (.editor fp) =>
    match recordGet w.openFiles fp with
    | none => w
    | some sourcePane =>
      match jsFindOrHead sourcePane.tabs sourcePane.activeTabId with
      | none => w
      | some sourceTab =>
        let newEditorPaneId := "editor::" ++ u1
        let newTabId := sourceTab.file.path ++ "::" ++ u2
        let newLayout := splitAtTile w.layout paneId (.editor newEditorPaneId) direction
        { w with
            openFiles := recordSet w.openFiles newEditorPaneId
              { tabs := [{ id := newTabId, file := sourceTab.file, pinned := true }]
                activeTabId := newTabId }
            layout := newLayout
            activePaneId := newEditorPaneId }
  | some (.split _ _ _) => w

/-- Tail of `handleMoveEditorTab`: merge or append the dragged tab into the
target pane of the (already source-pruned) state. -/
def moveEditorTabFinish (w : WorkspaceState) (layout : TileNode)
    (openFiles : List (String × EditorPaneState)) (targetPaneId : String)
    (draggedTab : EditorTabState) : WorkspaceState :=
  match recordGet openFiles targetPaneId with
  | none => w
  | some updatedTargetPane =>
    match updatedTargetPane.tabs.find? (fun tab => tab.file.path == draggedTab.file.path) with
    | some existingTargetTab =>
      let nextTargetTabs := updatedTargetPane.tabs.map (fun tab =>
        if tab.id == existingTargetTab.id then
          { tab with pinned := tab.pinned || draggedTab.pinned, file := draggedTab.file }
        else tab)
      { w with
          openFiles := recordSet openFiles targetPaneId
            { updatedTargetPane with tabs := nextTargetTabs, activeTabId := existingTargetTab.id }
          layout := layout
          activePaneId := targetPaneId }
    | none =>
      { w with
          openFiles := recordSet openFiles targetPaneId
            { updatedTargetPane with
                tabs := updatedTargetPane.tabs ++ [draggedTab]
                activeTabId := draggedTab.id }
          layout := layout
          activePaneId := targetPaneId }

/-- The `handleMoveEditorTab(fromPaneId, tabId, targetPaneId)`. -/
def handleMoveEditorTab (w : WorkspaceState) (fromPaneId tabId targetPaneId : String) :
    WorkspaceState :=
  if fromPaneId = targetPaneId then w
  else
    match findInTile w.layout fromPaneId, findInTile w.layout targetPaneId with
    | some (.editor _), some (.editor _) =>
      match recordGet w.openFiles fromPaneId, recordGet w.openFiles targetPaneId with
      | some sourcePane, some targetPane =>
        match sourcePane.tabs.find? (fun tab => tab.id == tabId) with
        | none => w
        | some draggedTab =>
          let draggedIndex := sourcePane.tabs.findIdx (fun tab => tab.id == tabId)
          let remainingSourceTabs := sourcePane.tabs.filter (fun tab => tab.id != tabId)
          if remainingSourceTabs.length = 0 then
            match removeFromTile w.layout fromPaneId with
            | none => w
            | some prunedLayout =>
              let openFiles := recordDelete w.openFiles fromPaneId
              if (findInTile prunedLayout targetPaneId).isNone then w
              else moveEditorTabFinish w prunedLayout openFiles targetPaneId draggedTab
          else
            let nextActiveTabId :=
              if sourcePane.activeTabId == tabId then
                jsActiveAfterRemoval remainingSourceTabs (draggedIndex - 1)
              else sourcePane.activeTabId
            let openFiles := recordSet w.openFiles fromPaneId
              { sourcePane with tabs := remainingSourceTabs, activeTabId := nextActiveTabId }
            moveEditorTabFinish w w.layout openFiles targetPaneId draggedTab
      | _, _ => w
    | _, _ => w

inductive DropPosition
| center
| left
| right
| top
| bottom
deriving DecidableEq

/-- The `dropPositionToSplit(position)`. -/
def dropPositionToSplit (position : DropPosition) : TileDirection × SplitPlacement :=
  match position with
  | .left => (.horizontal, .before)
  | .right => (.horizontal, .after)
  | .top => (.vertical, .before)
  | .bottom => (.vertical, .after)
  | .center => (.horizontal, .after)

/-- The `handleDropEditorTab(fromPaneId, tabId, targetPaneId, position)` (uuids
supplied): always creates a brand-new editor pane next to the terminal target. -/
def handleDropEditorTab (w : WorkspaceState) (fromPaneId tabId targetPaneId : String)
    (position : DropPosition) (u1 u2 : String) : WorkspaceState :=
  match findInTile w.layout targetPaneId with
  | some (.term _) =>
    match recordGet w.openFiles fromPaneId with
    | none => w
    | some sourcePane =>
      match sourcePane.tabs.find? (fun tab => tab.id == tabId) with
      | none => w
      | some draggedTab =>
        let draggedIndex := sourcePane.tabs.findIdx (fun tab => tab.id == tabId)
        let remainingSourceTabs := sourcePane.tabs.filter (fun tab => tab.id != tabId)
        let step : Option (TileNode × List (String × EditorPaneState)) :=
          if remainingSourceTabs.length = 0 then
            match removeFromTile w.layout fromPaneId with
            | none => none
            | some prunedLayout => some (prunedLayout, recordDelete w.openFiles fromPaneId)
          else
            let nextActiveTabId :=
              if sourcePane.activeTabId == tabId then
                jsActiveAfterRemoval remainingSourceTabs (draggedIndex - 1)
              else sourcePane.activeTabId
            some (w.layout, recordSet w.openFiles fromPaneId
              { sourcePane with tabs := remainingSourceTabs, activeTabId := nextActiveTabId })
        match step with
        | none => w
        | some (layout, openFiles) =>
          if (findInTile layout targetPaneId).isNone then w
          else
            let dp := dropPositionToSplit position
            let newPaneId := "editor::" ++ u1
            let newTabId := draggedTab.file.path ++ "::" ++ u2
            let newLayout :=
              splitAtTileWithPlacement layout targetPaneId (.editor newPaneId) dp.1 dp.2
            { w with
                openFiles := recordSet openFiles newPaneId
                  { tabs := [{ draggedTab with id := newTabId, pinned := true }]
                    activeTabId := newTabId }
                layout := newLayout
                activePaneId := newPaneId }
  | _ => w

/-- The `handleCloseEditorTab(paneId, tabId)`. -/
def handleCloseEditorTab (w : WorkspaceState) (paneId tabId : String) : WorkspaceState :=
  match recordGet w.openFiles paneId with
  | none => w
  | some pane =>
    match pane.tabs.find? (fun tab => tab.id == tabId) with
    | none => w
    | some _ =>
      let tabIndex := pane.tabs.findIdx (fun tab => tab.id == tabId)
      let nextTabs := pane.tabs.filter (fun tab => tab.id != tabId)
      if nextTabs.length = 0 then
        match removeFromTile w.layout paneId with
        | none => w
        | some newLayout =>
          let newOpenFiles := recordDelete w.openFiles paneId
          let newActivePaneId :=
            if w.activePaneId = paneId then jsHeadOr (getAllLeafIds newLayout) w.activePaneId
            else w.activePaneId
          { w with
              openFiles := newOpenFiles
              layout := newLayout
              activePaneId := newActivePaneId }
      else
        let nextActiveTabId :=
          if pane.activeTabId == tabId then jsActiveAfterRemoval nextTabs (tabIndex - 1)
          else pane.activeTabId
        { w with
            openFiles := recordSet w.openFiles paneId
              { pane with tabs := nextTabs, activeTabId := nextActiveTabId }
            activePaneId := paneId }

/-- Number of preview (non-pinned) tabs in a tab list. -/
def previewCount (tabs : List EditorTabState) : Nat :=
  (tabs.filter (fun tab => !tab.pinned)).length

/-- At most one preview tab in every editor pane of a record. -/
def previewInvOF (r : List (String × EditorPaneState)) : Prop :=
  ∀ p ∈ r, previewCount p.2.tabs ≤ 1

/-- The spec invariant: at most one preview tab per editor pane. -/
def previewInv (w : WorkspaceState) : Prop :=
  previewInvOF w.openFiles

instance previewInvOFDecidable (r : List (String × EditorPaneState)) :
    Decidable (previewInvOF r) :=
  List.decidableBAll _ r

instance previewInvDecidable (w : WorkspaceState) : Decidable (previewInv w) :=
  previewInvOFDecidable w.openFiles

theorem recordGet_mem {A : Type} (r : List (String × A)) (k : String) (v : A)
    (h : recordGet r k = some v) : (k, v) ∈ r := by
  induction r with
  | nil => simp [recordGet] at h
  | cons hd tl ih =>
    obtain ⟨k2, v2⟩ := hd
    simp only [recordGet] at h
    by_cases hk : k2 = k
    · rw [if_pos hk] at h
      simp only [Option.some.injEq] at h
      subst h
      subst hk
      exact List.mem_cons_self _ _
    · rw [if_neg hk] at h
      exact List.mem_cons_of_mem _ (ih h)

theorem recordSet_mem {A : Type} (r : List (String × A)) (k : String) (v : A)
    (p : String × A) (h : p ∈ recordSet r k v) : p.2 = v ∨ p ∈ r := by
  induction r with
  | nil =>
    simp only [recordSet, List.mem_singleton] at h
    subst h
    exact Or.inl rfl
  | cons hd tl ih =>
    obtain ⟨k2, v2⟩ := hd
    simp only [recordSet] at h
    by_cases hk : k2 = k
    · rw [if_pos hk] at h
      rcases List.mem_cons.mp h with h | h
      · subst h
        exact Or.inl rfl
      · exact Or.inr (List.mem_cons_of_mem _ h)
    · rw [if_neg hk] at h
      rcases List.mem_cons.mp h with h | h
      · subst h
        exact Or.inr (List.mem_cons_self _ _)
      · rcases ih h with h2 | h2
        · exact Or.inl h2
        · exact Or.inr (List.mem_cons_of_mem _ h2)

theorem recordDelete_mem {A : Type} (r : List (String × A)) (k : String)
    (p : String × A) (h : p ∈ recordDelete r k) : p ∈ r := by
  induction r with
  | nil => simp [recordDelete] at h
  | cons hd tl ih =>
    obtain ⟨k2, v2⟩ := hd
    simp only [recordDelete] at h
    by_cases hk : k2 = k
    · rw [if_pos hk] at h
      exact List.mem_cons_of_mem _ h
    · rw [if_neg hk] at h
      rcases List.mem_cons.mp h with h | h
      · subst h
        exact List.mem_cons_self _ _
      · exact List.mem_cons_of_mem _ (ih h)

theorem previewInvOF_set (r : List (String × EditorPaneState)) (k : String)
    (v : EditorPaneState) (h : previewInvOF r) (hv : previewCount v.tabs ≤ 1) :
    previewInvOF (recordSet r k v) := by
  intro p hp
  rcases recordSet_mem r k v p hp with h2 | h2
  · rw [h2]
    exact hv
  · exact h p h2

theorem previewInvOF_delete (r : List (String × EditorPaneState)) (k : String)
    (h : previewInvOF r) : previewInvOF (recordDelete r k) :=
  fun p hp => h p (recordDelete_mem r k p hp)

theorem previewCount_append (xs ys : List EditorTabState) :
    previewCount (xs ++ ys) = previewCount xs + previewCount ys := by
  simp [previewCount, List.filter_append]

theorem previewCount_singleton_le (t : EditorTabState) : previewCount [t] ≤ 1 := by
  cases hp : t.pinned <;> simp [previewCount, List.filter, hp]

theorem previewCount_map_pinned_eq (tabs : List EditorTabState)
    (f : EditorTabState → EditorTabState) (hf : ∀ t, (f t).pinned = t.pinned) :
    previewCount (tabs.map f) = previewCount tabs := by
  induction tabs with
  | nil => rfl
  | cons t ts ih =>
    simp only [List.map, previewCount, List.filter]
    rw [hf t]
    cases hp : t.pinned <;> simp_all [previewCount]

theorem previewCount_map_mono (tabs : List EditorTabState)
    (f : EditorTabState → EditorTabState) (hf : ∀ t, t.pinned = true → (f t).pinned = true) :
    previewCount (tabs.map f) ≤ previewCount tabs := by
  induction tabs with
  | nil => exact Nat.le_refl 0
  | cons t ts ih =>
    simp only [List.map, previewCount, List.filter]
    cases hp : t.pinned with
    | true =>
      rw [hf t hp]
      simpa [previewCount] using ih
    | false =>
      cases hfp : (f t).pinned <;> simp_all [previewCount] <;> omega

theorem previewCount_filter_le (tabs : List EditorTabState) (q : EditorTabState → Bool) :
    previewCount (tabs.filter q) ≤ previewCount tabs :=
  List.Sublist.length_le (List.Sublist.filter _ (List.filter_sublist tabs))

theorem previewCount_zero_of_find_none (tabs : List EditorTabState)
    (h : tabs.find? (fun tab => !tab.pinned) = none) : previewCount tabs = 0 := by
  have hall := List.find?_eq_none.mp h
  simp only [previewCount, List.length_eq_zero, List.filter_eq_nil]
  intro a ha
  exact fun hc => (hall a ha) hc

theorem previewCount_tabs0 (pane : EditorPaneState) (filePath : String) (data : OpenFile) :
    previewCount (fileSelectTabs0 pane filePath data) = previewCount pane.tabs := by
  apply previewCount_map_pinned_eq
  intro t
  cases hc : t.file.path == filePath <;> simp [hc]

/-- The `handleFileSelect` preserves the one-preview-per-pane invariant. -/
theorem previewInv_fileSelect (w : WorkspaceState) (filePath : String) (pinned : Bool)
    (data : OpenFile) (u1 u2 : String) (h : previewInv w) :
    previewInv (handleFileSelect w filePath pinned data u1 u2) := by
  unfold handleFileSelect
  cases htgt : fileSelectTargetPaneId w with
  | none =>
    apply previewInvOF_set _ _ _ h
    exact previewCount_singleton_le _
  | some tgt =>
    dsimp only
    cases hget : recordGet w.openFiles tgt with
    | none => exact h
    | some pane =>
      dsimp only
      have hpane : previewCount pane.tabs ≤ 1 := h (tgt, pane) (recordGet_mem _ _ _ hget)
      cases hfind : (fileSelectTabs0 pane filePath data).find?
          (fun tab => tab.file.path == filePath) with
      | some existingTab =>
        apply previewInvOF_set _ _ _ h
        show previewCount (if pinned && !existingTab.pinned then _ else _) ≤ 1
        split_ifs
        · refine le_trans (previewCount_map_mono _ _ ?_)
            (le_of_eq_of_le (previewCount_tabs0 pane filePath data) hpane)
          intro t ht
          cases hc : t.id == existingTab.id <;> simp [hc, ht]
        · exact le_of_eq_of_le (previewCount_tabs0 pane filePath data) hpane
      | none =>
        by_cases hp : pinned = true
        · rw [if_pos hp]
          apply previewInvOF_set _ _ _ h
          show previewCount (fileSelectTabs0 pane filePath data ++ _) ≤ 1
          rw [previewCount_append, previewCount_tabs0]
          simpa [previewCount, List.filter] using hpane
        · rw [if_neg hp]
          cases hfp : (fileSelectTabs0 pane filePath data).find? (fun tab => !tab.pinned) with
          | some previewTab =>
            apply previewInvOF_set _ _ _ h
            show previewCount (List.map _ (fileSelectTabs0 pane filePath data)) ≤ 1
            refine le_trans (le_of_eq (previewCount_map_pinned_eq _ _ ?_))
              (le_of_eq_of_le (previewCount_tabs0 pane filePath data) hpane)
            intro t
            cases hc : t.id == previewTab.id <;> simp [hc]
          | none =>
            apply previewInvOF_set _ _ _ h
            show previewCount (fileSelectTabs0 pane filePath data ++ _) ≤ 1
            rw [previewCount_append, previewCount_zero_of_find_none _ hfp]
            simp [previewCount, List.filter]

/-- The `handleSplitPane` preserves the one-preview-per-pane invariant. -/
theorem previewInv_splitPane (w : WorkspaceState) (paneId : String)
    (direction : TileDirection) (u1 u2 : String) (h : previewInv w) :
    previewInv (handleSplitPane w paneId direction u1 u2) := by
  unfold handleSplitPane
  cases hfd : findInTile w.layout paneId with
  | none => exact h
  | some node =>
    cases node with
    | term tid => exact h
    | split d l r => exact h
    | editor fp =>
      dsimp only
      cases hget : recordGet w.openFiles fp with
      | none => exact h
      | some sourcePane =>
        dsimp only
        cases hfh : jsFindOrHead sourcePane.tabs sourcePane.activeTabId with
        | none => exact h
        | some sourceTab =>
          dsimp only
          apply previewInvOF_set _ _ _ h
          exact previewCount_singleton_le _

/-- The `handleDropEditorTab` preserves the one-preview-per-pane invariant. -/
theorem previewInv_dropEditorTab (w : WorkspaceState)
    (fromPaneId tabId targetPaneId : String) (position : DropPosition)
    (u1 u2 : String) (h : previewInv w) :
    previewInv (handleDropEditorTab w fromPaneId tabId targetPaneId position u1 u2) := by
  unfold handleDropEditorTab
  cases hft : findInTile w.layout targetPaneId with
  | none => exact h
  | some node =>
    cases node with
    | editor fp => exact h
    | split d l r => exact h
    | term tid =>
      dsimp only
      cases hget : recordGet w.openFiles fromPaneId with
      | none => exact h
      | some sourcePane =>
        dsimp only
        have hpane : previewCount sourcePane.tabs ≤ 1 :=
          h _ (recordGet_mem _ _ _ hget)
        cases hfind : sourcePane.tabs.find? (fun tab => tab.id == tabId) with
        | none => exact h
        | some draggedTab =>
          dsimp only
          by_cases hlen : (sourcePane.tabs.filter (fun tab => tab.id != tabId)).length = 0
          · rw [if_pos hlen]
            cases hrem : removeFromTile w.layout fromPaneId with
            | none => exact h
            | some prunedLayout =>
              dsimp only
              split_ifs
              · exact h
              · apply previewInvOF_set _ _ _ (previewInvOF_delete _ _ h)
                exact previewCount_singleton_le _
          · rw [if_neg hlen]
            dsimp only
            split_ifs
            all_goals
              first
                | exact h
                | · apply previewInvOF_set _ _ _ (previewInvOF_set _ _ _ h
                      (le_trans (previewCount_filter_le _ _) hpane))
                    exact previewCount_singleton_le _

/-- The `handleCloseEditorTab` preserves the one-preview-per-pane invariant. -/
theorem previewInv_closeEditorTab (w : WorkspaceState) (paneId tabId : String)
    (h : previewInv w) : previewInv (handleCloseEditorTab w paneId tabId) := by
  unfold handleCloseEditorTab
  cases hget : recordGet w.openFiles paneId with
  | none => exact h
  | some pane =>
    dsimp only
    have hpane : previewCount pane.tabs ≤ 1 := h _ (recordGet_mem _ _ _ hget)
    cases hfind : pane.tabs.find? (fun tab => tab.id == tabId) with
    | none => exact h
    | some tb =>
      dsimp only
      by_cases hlen : (pane.tabs.filter (fun tab => tab.id != tabId)).length = 0
      · rw [if_pos hlen]
        cases hrem : removeFromTile w.layout paneId with
        | none => exact h
        | some newLayout =>
          dsimp only
          exact previewInvOF_delete _ _ h
      · rw [if_neg hlen]
        apply previewInvOF_set _ _ _ h
        exact le_trans (previewCount_filter_le _ _) hpane

/-- The `handleClosePane` preserves the one-preview-per-pane invariant. -/
theorem previewInv_closePane (w : WorkspaceState) (paneId : String)
    (h : previewInv w) : previewInv (handleClosePane w paneId) := by
  unfold handleClosePane
  cases hrem : removeFromTile w.layout paneId with
  | none => exact h
  | some newLayout =>
    dsimp only
    cases hfd : findInTile w.layout paneId with
    | none => exact h
    | some node =>
      cases node with
      | term tid => exact h
      | split d l r => exact h
      | editor fp => exact previewInvOF_delete _ _ h

/-- Number of tabs currently open in an editor pane. -/
def paneTabCount (w : WorkspaceState) (paneId : String) : Nat :=
  match recordGet w.openFiles paneId with
  | some p => p.tabs.length
  | none => 0

/-- Scenario: open `/a.ts` unpinned in a fresh workspace. -/
def scenarioOpenA : WorkspaceState :=
  handleFileSelect (createWorkspace "w" "t1" ".") "/a.ts" false ⟨"/a.ts", "A"⟩ "p1" "u1"

/-- Scenario: then open `/b.ts` unpinned. -/
def scenarioOpenB : WorkspaceState :=
  handleFileSelect scenarioOpenA "/b.ts" false ⟨"/b.ts", "B"⟩ "p2" "u2"

/-- Scenario: then open `/a.ts` pinned. -/
def scenarioOpenAPinned : WorkspaceState :=
  handleFileSelect scenarioOpenB "/a.ts" true ⟨"/a.ts", "A"⟩ "p3" "u3"

/-- A reachable state with two editor panes: pane `editor::p1` holds a preview
of `/a.ts` plus a pinned `/b.ts`; pane `editor::p3` holds a pinned `/b.ts` copy
plus a preview of `/c.ts`. -/
def moveScenarioBefore : WorkspaceState :=
  handleFileSelect
    (handleSplitPane
      (handleFileSelect scenarioOpenA "/b.ts" true ⟨"/b.ts", "B"⟩ "p2" "u2")
      "editor::p1" .horizontal "p3" "u3")
    "/c.ts" false ⟨"/c.ts", "C"⟩ "p4" "u4"

/-- Dragging the `/a.ts` preview tab from pane `editor::p1` onto pane
`editor::p3`, which already holds a preview tab. -/
def moveScenario : WorkspaceState :=
  handleMoveEditorTab moveScenarioBefore "editor::p1" "preview::u1" "editor::p3"

/-- C9 counterexample: the one-preview-per-pane invariant holds before, but
moving a preview tab into a pane that already holds one leaves that pane with
two preview tabs. -/
theorem claim_C9_counterexample :
    previewInv moveScenarioBefore ∧ ¬ previewInv moveScenario := by
  constructor <;> decide

/-- C9 (amended): opening a file (pinned or unpinned), splitting a pane,
dropping an editor tab onto a terminal pane, and closing a tab or pane all
preserve the at-most-one-preview-tab-per-editor-pane invariant (moving an
editor tab between panes does not); opening `/a.ts` unpinned then `/b.ts`
unpinned leaves exactly one tab in the single editor pane, and then opening
`/a.ts` pinned leaves exactly two. -/
theorem claim_C9 :
    (∀ w filePath pinned data u1 u2, previewInv w →
      previewInv (handleFileSelect w filePath pinned data u1 u2)) ∧
    (∀ w paneId direction u1 u2, previewInv w →
      previewInv (handleSplitPane w paneId direction u1 u2)) ∧
    (∀ w fromPaneId tabId targetPaneId position u1 u2, previewInv w →
      previewInv (handleDropEditorTab w fromPaneId tabId targetPaneId position u1 u2)) ∧
    (∀ w paneId tabId, previewInv w → previewInv (handleCloseEditorTab w paneId tabId)) ∧
    (∀ w paneId, previewInv w → previewInv (handleClosePane w paneId)) ∧
    (scenarioOpenB.openFiles.length = 1 ∧ paneTabCount scenarioOpenB "editor::p1" = 1) ∧
    paneTabCount scenarioOpenAPinned "editor::p1" = 2 := by
  refine ⟨previewInv_fileSelect, previewInv_splitPane, previewInv_dropEditorTab,
    previewInv_closeEditorTab, previewInv_closePane, ⟨?_, ?_⟩, ?_⟩ <;> decide

/-- Witness for C9 at a concrete workspace and operation. -/
theorem claim_C9_witness :
    previewInv (handleFileSelect (createWorkspace "w" "t1" ".") "/a.ts" false
      ⟨"/a.ts", "A"⟩ "p1" "u1") :=
  claim_C9.1 (createWorkspace "w" "t1" ".") "/a.ts" false ⟨"/a.ts", "A"⟩ "p1" "u1"
    (by decide)

/-! Section: Wire protocol codec: JSON.parse model

An executable parser for the JSON subset relevant to control frames
(objects, arrays, strings with escapes, numbers with fraction/exponent,
booleans, null), with numbers as exact rationals. -/

/-- Exact-rational model of a JS number (normalized fraction, built from
Nat/Int operations only). The doubles appearing in control frames are small
decimals, represented exactly. -/
structure JNum where
  num : Int
  den : Nat
deriving DecidableEq

/-- Normalize a fraction. -/
def JNum.make (n : Int) (d : Nat) : JNum :=
  let g := Nat.gcd n.natAbs d
  if g ≤ 1 then ⟨n, d⟩ else ⟨n / (g : Int), d / g⟩

/-- The JS number of a natural literal. -/
def JNum.ofNat (n : Nat) : JNum := ⟨(n : Int), 1⟩

/-- JSON values as produced by `JSON.parse`. -/
inductive JValue
| null
| bool (b : Bool)
| num (q : JNum)
| str (s : String)
| arr (xs : List JValue)
| obj (fields : List (String × JValue))

/-- The left-brace and right-brace characters. -/
def lbrace : Char := Char.ofNat 123

def rbrace : Char := Char.ofNat 125

/-- A string holding a single left brace. -/
def lbraceStr : String := String.mk [lbrace]

def isJsonWs (c : Char) : Bool := c = ' ' || c = '\t' || c = '\n' || c = '\r'

def skipWs : List Char → List Char
  | c :: cs => if isJsonWs c then skipWs cs else c :: cs
  | [] => []

def isJsonDigit (c : Char) : Bool :=
  48 ≤ c.toNat && c.toNat ≤ 57

def digitVal (c : Char) : Nat := c.toNat - 48

/-- Read a maximal run of digits; returns value, digit count and the rest. -/
def parseDigits : List Char → Nat → Nat → Nat × Nat × List Char
  | c :: rest, acc, cnt =>
    if isJsonDigit c then parseDigits rest (acc * 10 + digitVal c) (cnt + 1)
    else (acc, cnt, c :: rest)
  | [], acc, cnt => (acc, cnt, [])

def hexVal (c : Char) : Option Nat :=
  let n := c.toNat
  if isJsonDigit c then some (digitVal c)
  else if 97 ≤ n && n ≤ 102 then some (n - 87)
  else if 65 ≤ n && n ≤ 70 then some (n - 55)
  else none

/-- Parse the remainder of a JSON string literal (after the opening quote). -/
def parseStringAux : Nat → List Char → List Char → Option (String × List Char)
  | 0, _, _ => none
  | _ + 1, [], _ => none
  | fuel + 1, c :: rest, acc =>
    if c = '"' then some (String.mk acc.reverse, rest)
    else if c = '\\' then
      match rest with
      | [] => none
      | e :: rest2 =>
        if e = '"' then parseStringAux fuel rest2 ('"' :: acc)
        else if e = '\\' then parseStringAux fuel rest2 ('\\' :: acc)
        else if e = '/' then parseStringAux fuel rest2 ('/' :: acc)
        else if e = 'b' then parseStringAux fuel rest2 (Char.ofNat 8 :: acc)
        else if e = 'f' then parseStringAux fuel rest2 (Char.ofNat 12 :: acc)
        else if e = 'n' then parseStringAux fuel rest2 ('\n' :: acc)
        else if e = 'r' then parseStringAux fuel rest2 ('\r' :: acc)
        else if e = 't' then parseStringAux fuel rest2 ('\t' :: acc)
        else if e = 'u' then
          match rest2 with
          | h1 :: h2 :: h3 :: h4 :: rest3 =>
            match hexVal h1, hexVal h2, hexVal h3, hexVal h4 with
            | some a, some b, some c2, some d =>
              parseStringAux fuel rest3 (Char.ofNat (((a * 16 + b) * 16 + c2) * 16 + d) :: acc)
            | _, _, _, _ => none
          | _ => none
        else none
    else parseStringAux fuel rest (c :: acc)

/-- Optional exponent part. -/
def parseExp (cs : List Char) : Option (Int × List Char) :=
  match cs with
  | c :: rest =>
    if c = 'e' || c = 'E' then
      let signAndRest : Bool × List Char :=
        match rest with
        | '+' :: r2 => (false, r2)
        | '-' :: r2 => (true, r2)
        | _ => (false, rest)
      let r := parseDigits signAndRest.2 0 0
      if r.2.1 = 0 then none
      else some (if signAndRest.1 then -(r.1 : Int) else (r.1 : Int), r.2.2)
    else some (0, c :: rest)
  | [] => some (0, [])

/-- JSON number: optional minus, strict integer part (no leading zeros),
optional fraction and exponent. -/
def parseNumber (cs : List Char) : Option (JValue × List Char) :=
  let signAndRest : Bool × List Char :=
    match cs with
    | '-' :: rest => (true, rest)
    | _ => (false, cs)
  match signAndRest.2 with
  | [] => none
  | c :: _ =>
    if !(isJsonDigit c) then none
    else
      let r := parseDigits signAndRest.2 0 0
      if 2 ≤ r.2.1 && c = '0' then none
      else
        let fracRes : Option (Nat × Nat × List Char) :=
          match r.2.2 with
          | '.' :: rest2 =>
            let fr := parseDigits rest2 0 0
            if fr.2.1 = 0 then none else some (fr.1, fr.2.1, fr.2.2)
          | other => some (0, 0, other)
        match fracRes with
        | none => none
        | some (fdig, fcnt, cs3) =>
          match parseExp cs3 with
          | none => none
          | some (e, cs4) =>
            let mant : Nat := r.1 * 10 ^ fcnt + fdig
            let mantI : Int := if signAndRest.1 then -(mant : Int) else (mant : Int)
            let value : JNum :=
              if 0 ≤ e then JNum.make (mantI * (10 : Int) ^ e.toNat) (10 ^ fcnt)
              else JNum.make mantI (10 ^ fcnt * 10 ^ (-e).toNat)
            some (.num value, cs4)

mutual

/-- Parse one JSON value (fuel bounds the nesting depth). -/
def parseValue : Nat → List Char → Option (JValue × List Char)
  | 0, _ => none
  | fuel + 1, cs =>
    match skipWs cs with
    | [] => none
    | c :: rest =>
      if c = lbrace then parseObjBody fuel rest
      else if c = '[' then parseArrBody fuel rest
      else if c = '"' then
        match parseStringAux (rest.length + 1) rest [] with
        | some (s, r2) => some (.str s, r2)
        | none => none
      else if c = 't' then
        match rest with
        | 'r' :: 'u' :: 'e' :: r2 => some (.bool true, r2)
        | _ => none
      else if c = 'f' then
        match rest with
        | 'a' :: 'l' :: 's' :: 'e' :: r2 => some (.bool false, r2)
        | _ => none
      else if c = 'n' then
        match rest with
        | 'u' :: 'l' :: 'l' :: r2 => some (.null, r2)
        | _ => none
      else parseNumber (c :: rest)

/-- Parse an object body after the opening brace. -/
def parseObjBody : Nat → List Char → Option (JValue × List Char)
  | 0, _ => none
  | fuel + 1, cs =>
    match skipWs cs with
    | [] => none
    | c :: rest =>
      if c = rbrace then some (.obj [], rest)
      else parseMembers fuel (c :: rest) []

/-- Parse the members of a non-empty object. -/
def parseMembers : Nat → List Char → List (String × JValue) →
    Option (JValue × List Char)
  | 0, _, _ => none
  | fuel + 1, cs, acc =>
    match skipWs cs with
    | '"' :: rest =>
      match parseStringAux (rest.length + 1) rest [] with
      | none => none
      | some (key, r2) =>
        match skipWs r2 with
        | ':' :: r3 =>
          match parseValue fuel r3 with
          | none => none
          | some (v, r4) =>
            match skipWs r4 with
            | [] => none
            | c2 :: r5 =>
              if c2 = ',' then parseMembers fuel r5 (acc ++ [(key, v)])
              else if c2 = rbrace then some (.obj (acc ++ [(key, v)]), r5)
              else none
        | _ => none
    | _ => none

/-- Parse an array body after the opening bracket. -/
def parseArrBody : Nat → List Char → Option (JValue × List Char)
  | 0, _ => none
  | fuel + 1, cs =>
    match skipWs cs with
    | ']' :: rest => some (.arr [], rest)
    | cs2 => parseElems fuel cs2 []

/-- Parse the elements of a non-empty array. -/
def parseElems : Nat → List Char → List JValue → Option (JValue × List Char)
  | 0, _, _ => none
  | fuel + 1, cs, acc =>
    match parseValue fuel cs with
    | none => none
    | some (v, r2) =>
      match skipWs r2 with
      | ',' :: r3 => parseElems fuel r3 (acc ++ [v])
      | ']' :: r3 => some (.arr (acc ++ [v]), r3)
      | _ => none

end

/-- The `JSON.parse(data)`: the whole string must be one JSON value plus
whitespace; throws (none) otherwise. -/
def jsonParse (data : String) : Option JValue :=
  let cs := data.toList
  match parseValue (cs.length + 1) cs with
  | some (v, rest) => if (skipWs rest).isEmpty then some v else none
  | none => none

/-- Last-wins lookup among object fields, as `JSON.parse` keeps the last
duplicate key. -/
def objGetLast (fields : List (String × JValue)) (key : String) : Option JValue :=
  match fields with
  | [] => none
  | (k, v) :: rest =>
    match objGetLast rest key with
    | some r => some r
    | none => if k = key then some v else none

/-- JS property access `value[key]`: undefined (none) for missing keys and
non-objects. -/
def jsGet (v : JValue) (key : String) : Option JValue :=
  match v with
  | .obj fields => objGetLast fields key
  | _ => none

/-! Section: PTY session registry (server/terminal.ts) -/

/-- State of a spawned PTY process: spawn working directory, current size and
the input written to it, in order. A resize whose sizes pass the node-pty
guard is modelled as an update of the size; one that fails it throws and
changes nothing. -/
structure Pty where
  pid : Nat
  cwd : String
  cols : JNum
  rows : JNum
  written : List String
deriving DecidableEq

/-- A registry `Session`: owning process, at most one bound endpoint (by id),
last-activity timestamp, stored column/row extent. -/
structure Session where
  id : String
  pty : Pty
  ws : Option Nat
  lastActivity : Nat
  cols : JNum
  rows : JNum
deriving DecidableEq

def ORPHAN_TIMEOUT : Nat := 5 * 60 * 1000

/-- The `TerminalManager` state: the constructor cwd, the session map, a counter
supplying pids (its value counts the processes spawned so far), the log of
frames sent to endpoints, and the endpoints whose readyState is OPEN. -/
structure ManagerState where
  mcwd : String
  sessions : List (String × Session)
  nextPid : Nat
  sent : List (Nat × String)
  openWs : List Nat
deriving DecidableEq

/-- The `attach(sessionId, ws)`: spawn a new PTY at the manager cwd when the id is
unseen (default size 80×24) and register it; then bind the endpoint and reset
the last-activity timestamp. The TypeScript signature takes no cwd parameter;
the process is always spawned at the manager's constructor cwd. -/
def attach (st : ManagerState) (sessionId : String) (wsId : Nat) (now : Nat) :
    ManagerState :=
  match recordGet st.sessions sessionId with
  | some s =>
    let s2 : Session := { s with ws := some wsId, lastActivity := now }
    { st with sessions := recordSet st.sessions sessionId s2 }
  | none =>
    let p : Pty := { pid := st.nextPid, cwd := st.mcwd, cols := ⟨80, 1⟩, rows := ⟨24, 1⟩, written := [] }
    let s : Session := { id := sessionId, pty := p, ws := some wsId, lastActivity := now, cols := ⟨80, 1⟩, rows := ⟨24, 1⟩ }
    { st with
        sessions := recordSet st.sessions sessionId s
        nextPid := st.nextPid + 1 }

/-- The `wss.on('connection')` handler of server/index.ts after successful
auth and session-id extraction: it calls `terminalManager.attach(sessionId,
ws, cwd)`, but `TerminalManager.attach` declares only two parameters, so the
`cwd` argument is dropped at the call boundary. -/
def connectionAttach (st : ManagerState) (sessionId : String) (wsId : Nat)
    (cwdParam : Option String) (now : Nat) : ManagerState :=
  attach st sessionId wsId now

/-- The `data.startsWith('\x7b')`: the frame's first character is a left brace. -/
def jsFirstCharLbrace (data : String) : Bool :=
  match data.toList with
  | c :: _ => c = lbrace
  | [] => false

/-- The control-frame classification of the message handler: a frame whose
first character is a left brace, parses as JSON, carries type "resize", and
whose cols and rows are JS numbers, yields the resize payload; anything else
is terminal input. No positivity or integrality check is performed. -/
def decodeResize (data : String) : Option (JNum × JNum) :=
  if jsFirstCharLbrace data then
    match jsonParse data with
    | some v =>
      match jsGet v "type", jsGet v "cols", jsGet v "rows" with
      | some (.str t), some (.num c), some (.num r) =>
        if t = "resize" then some (c, r) else none
      | _, _, _ => none
    | none => none
  else none

/-- The guard of node-pty's `resize(cols, rows)`, a dependency outside this
repository modelled from its documented behavior: it throws for non-positive,
NaN or infinite sizes before touching the process. Values produced by
`JSON.parse` are always finite, so on the handler's inputs the throw
condition is exactly cols ≤ 0 or rows ≤ 0. -/
def resizeThrows (c r : JNum) : Bool := c.num ≤ 0 || r.num ≤ 0

/-- The `ws.on('message')` handler registered for `sessionId`: bump
last-activity, then classify the frame. A decoded resize whose sizes pass the
node-pty guard is applied to the process and the stored extent (with a
`return`); one that fails it makes `s.pty.resize` throw inside the `try`, so
the `catch` swallows it, the extent assignments are skipped, and control falls
through to `s.pty.write(data)`; any other frame is written to the process. -/
def onMessage (st : ManagerState) (sessionId : String) (data : String) (now : Nat) :
    ManagerState :=
  match recordGet st.sessions sessionId with
  | none => st
  | some s =>
    match decodeResize data with
    | some (c, r) =>
      if resizeThrows c r then
        let s2 : Session := { s with lastActivity := now, pty := { s.pty with written := s.pty.written ++ [data] } }
        { st with sessions := recordSet st.sessions sessionId s2 }
      else
        let s2 : Session := { s with lastActivity := now, pty := { s.pty with cols := c, rows := r }, cols := c, rows := r }
        { st with sessions := recordSet st.sessions sessionId s2 }
    | none =>
      let s2 : Session := { s with lastActivity := now, pty := { s.pty with written := s.pty.written ++ [data] } }
      { st with sessions := recordSet st.sessions sessionId s2 }

/-- The `p.onData` handler: forward process output to the bound endpoint when
its readyState is OPEN (1). -/
def onData (st : ManagerState) (sessionId : String) (data : String) : ManagerState :=
  match recordGet st.sessions sessionId with
  | none => st
  | some s =>
    match s.ws with
    | some w => if w ∈ st.openWs then { st with sent := st.sent ++ [(w, data)] } else st
    | none => st

/-- The `ws.on('close')` handler registered for `sessionId` on endpoint
`wsId`: clears the binding only when this endpoint is still the bound one. -/
def onClose (st : ManagerState) (sessionId : String) (wsId : Nat) : ManagerState :=
  match recordGet st.sessions sessionId with
  | none => st
  | some s =>
    if s.ws = some wsId then
      { st with sessions := recordSet st.sessions sessionId { s with ws := none } }
    else st

/-- The `ws.on('error')` handler: same body as the close handler. -/
def onError (st : ManagerState) (sessionId : String) (wsId : Nat) : ManagerState :=
  match recordGet st.sessions sessionId with
  | none => st
  | some s =>
    if s.ws = some wsId then
      { st with sessions := recordSet st.sessions sessionId { s with ws := none } }
    else st

/-- The `killSession(sessionId)`: kill the process and drop the session; reports
whether one existed. -/
def killSession (st : ManagerState) (sessionId : String) : ManagerState × Bool :=
  match recordGet st.sessions sessionId with
  | none => (st, false)
  | some _ => ({ st with sessions := recordDelete st.sessions sessionId }, true)

/-- The `sweep()`: kill every session with no bound endpoint whose last activity
is older than the orphan timeout. -/
def sweep (st : ManagerState) (now : Nat) : ManagerState :=
  { st with sessions := st.sessions.filter (fun p =>
      !(p.2.ws.isNone && decide (ORPHAN_TIMEOUT < now - p.2.lastActivity))) }

theorem recordGet_set_self {A : Type} (r : List (String × A)) (k : String) (v : A) :
    recordGet (recordSet r k v) k = some v := by
  induction r with
  | nil => simp [recordSet, recordGet]
  | cons hd tl ih =>
    obtain ⟨k2, v2⟩ := hd
    by_cases hk : k2 = k
    · simp [recordSet, recordGet, hk]
    · simp [recordSet, recordGet, hk, ih]

theorem attach_openWs (st : ManagerState) (sessionId : String) (wsId : Nat) (now : Nat) :
    (attach st sessionId wsId now).openWs = st.openWs := by
  unfold attach
  cases recordGet st.sessions sessionId <;> rfl

theorem attach_sent (st : ManagerState) (sessionId : String) (wsId : Nat) (now : Nat) :
    (attach st sessionId wsId now).sent = st.sent := by
  unfold attach
  cases recordGet st.sessions sessionId <;> rfl

theorem attach_binds (st : ManagerState) (sessionId : String) (wsId : Nat) (now : Nat) :
    ∃ s2, recordGet (attach st sessionId wsId now).sessions sessionId = some s2 ∧
      s2.ws = some wsId := by
  unfold attach
  cases h : recordGet st.sessions sessionId with
  | some s => exact ⟨_, recordGet_set_self _ _ _, rfl⟩
  | none => exact ⟨_, recordGet_set_self _ _ _, rfl⟩

/-- A sample one-session registry: session `s1`, pid 0, bound endpoint 1. -/
def sampleSession : Session :=
  { id := "s1"
    pty := { pid := 0, cwd := "/project", cols := ⟨80, 1⟩, rows := ⟨24, 1⟩, written := [] }
    ws := some 1
    lastActivity := 0
    cols := ⟨80, 1⟩
    rows := ⟨24, 1⟩ }

def sampleManager : ManagerState :=
  { mcwd := "/project"
    sessions := [("s1", sampleSession)]
    nextPid := 1
    sent := []
    openWs := [1, 2] }

/-- An empty registry rooted at /project. -/
def freshManager : ManagerState :=
  { mcwd := "/project", sessions := [], nextPid := 0, sent := [], openWs := [1, 2] }

/-- A resize frame with fractional cols. -/
def fracResizeFrame : String := "\x7b\"type\":\"resize\",\"cols\":2.5,\"rows\":40\x7d"

/-- A resize frame with zero cols. -/
def zeroResizeFrame : String := "\x7b\"type\":\"resize\",\"cols\":0,\"rows\":40\x7d"

/-- C1: the first attach for an unseen id spawns exactly one PTY process,
registered at the default 80×24 size; every subsequent attach spawns nothing
and reuses the same process, rebinding the endpoint; after rebinding, process
output is delivered only to the newly bound endpoint and the previously bound
endpoint receives no further output. -/
theorem claim_C1 (st : ManagerState) (sessionId : String) :
    (∀ wsId now, recordGet st.sessions sessionId = none →
      (attach st sessionId wsId now).nextPid = st.nextPid + 1 ∧
      recordGet (attach st sessionId wsId now).sessions sessionId = some
        { id := sessionId
          pty := { pid := st.nextPid, cwd := st.mcwd, cols := ⟨80, 1⟩, rows := ⟨24, 1⟩, written := [] }
          ws := some wsId
          lastActivity := now
          cols := ⟨80, 1⟩
          rows := ⟨24, 1⟩ }) ∧
    (∀ s wsId now, recordGet st.sessions sessionId = some s →
      (attach st sessionId wsId now).nextPid = st.nextPid ∧
      recordGet (attach st sessionId wsId now).sessions sessionId = some
        { s with ws := some wsId, lastActivity := now }) ∧
    (∀ w1 w2 t1 t2 data, w2 ∈ st.openWs → w1 ≠ w2 →
      (onData (attach (attach st sessionId w1 t1) sessionId w2 t2) sessionId data).sent
        = (attach (attach st sessionId w1 t1) sessionId w2 t2).sent ++ [(w2, data)] ∧
      ((onData (attach (attach st sessionId w1 t1) sessionId w2 t2) sessionId data).sent.filter
          (fun p => p.1 == w1))
        = ((attach (attach st sessionId w1 t1) sessionId w2 t2).sent.filter
          (fun p => p.1 == w1))) := by
  refine ⟨?_, ?_, ?_⟩
  · intro wsId now h
    unfold attach
    rw [h]
    exact ⟨rfl, recordGet_set_self _ _ _⟩
  · intro s wsId now h
    unfold attach
    rw [h]
    exact ⟨rfl, recordGet_set_self _ _ _⟩
  · intro w1 w2 t1 t2 data hw2 hne
    obtain ⟨s2, hs2, hws2⟩ := attach_binds (attach st sessionId w1 t1) sessionId w2 t2
    have hopen : (attach (attach st sessionId w1 t1) sessionId w2 t2).openWs = st.openWs := by
      rw [attach_openWs, attach_openWs]
    have hfst : (onData (attach (attach st sessionId w1 t1) sessionId w2 t2) sessionId data).sent
        = (attach (attach st sessionId w1 t1) sessionId w2 t2).sent ++ [(w2, data)] := by
      unfold onData
      rw [hs2]
      dsimp only
      rw [hws2]
      dsimp only
      rw [if_pos (by rw [hopen]; exact hw2)]
    refine ⟨hfst, ?_⟩
    rw [hfst, List.filter_append]
    have hbeq : (w2 == w1) = false := by
      simp only [beq_eq_false_iff_ne, ne_eq]
      exact fun hc => hne hc.symm
    simp [List.filter, hbeq]

/-- Witness for C1 at a concrete registry and session id. -/
theorem claim_C1_witness :
    (attach freshManager "s1" 1 0).nextPid = freshManager.nextPid + 1 ∧
    recordGet (attach freshManager "s1" 1 0).sessions "s1" = some
      { id := "s1"
        pty := { pid := freshManager.nextPid, cwd := freshManager.mcwd, cols := ⟨80, 1⟩, rows := ⟨24, 1⟩, written := [] }
        ws := some 1
        lastActivity := 0
        cols := ⟨80, 1⟩
        rows := ⟨24, 1⟩ } :=
  (claim_C1 freshManager "s1").1 1 0 (by decide)

/-- C2: on an attached session, a frame not starting with a left brace is
written to the process unchanged; the well-formed resize frame resizes the
process and updates the stored extent to (120, 40) without ever being written;
a brace-prefixed frame that is not valid JSON is written in its entirety. -/
theorem claim_C2 (st : ManagerState) (sessionId : String) (s : Session) (now : Nat)
    (h : recordGet st.sessions sessionId = some s) :
    (∀ data, jsFirstCharLbrace data = false →
      onMessage st sessionId data now = { st with sessions := recordSet st.sessions sessionId { s with lastActivity := now, pty := { s.pty with written := s.pty.written ++ [data] } } }) ∧
    (onMessage st sessionId "\x7b\"type\":\"resize\",\"cols\":120,\"rows\":40\x7d" now
      = { st with sessions := recordSet st.sessions sessionId { s with lastActivity := now, pty := { s.pty with cols := ⟨120, 1⟩, rows := ⟨40, 1⟩ }, cols := ⟨120, 1⟩, rows := ⟨40, 1⟩ } }) ∧
    (∀ data, jsFirstCharLbrace data = true → jsonParse data = none →
      onMessage st sessionId data now = { st with sessions := recordSet st.sessions sessionId { s with lastActivity := now, pty := { s.pty with written := s.pty.written ++ [data] } } }) := by
  refine ⟨?_, ?_, ?_⟩
  · intro data hns
    have hdec : decodeResize data = none := by simp [decodeResize, hns]
    unfold onMessage
    rw [h]
    dsimp only
    rw [hdec]
  · have hdec : decodeResize "\x7b\"type\":\"resize\",\"cols\":120,\"rows\":40\x7d"
        = some (⟨120, 1⟩, ⟨40, 1⟩) := by decide
    unfold onMessage
    rw [h]
    dsimp only
    rw [hdec]
    dsimp only
    rw [if_neg (by decide)]
  · intro data hbr hparse
    have hdec : decodeResize data = none := by simp [decodeResize, hbr, hparse]
    unfold onMessage
    rw [h]
    dsimp only
    rw [hdec]

/-- Witness for C2 at a concrete registry and frames. -/
theorem claim_C2_witness :
    onMessage sampleManager "s1" "hello" 7
      = { sampleManager with sessions := recordSet sampleManager.sessions "s1" { sampleSession with lastActivity := 7, pty := { sampleSession.pty with written := sampleSession.pty.written ++ ["hello"] } } } :=
  (claim_C2 sampleManager "s1" sampleSession 7 (by decide)).1 "hello" (by decide)

/-- C3 counterexample: a resize frame with fractional cols (2.5) passes the
type-only check and the node-pty guard, so it is not forwarded to the process
as input; the resize is applied and the stored extent becomes (2.5, 40),
contradicting the claim. -/
theorem claim_C3_counterexample :
    decodeResize fracResizeFrame = some (⟨5, 2⟩, ⟨40, 1⟩) ∧
    recordGet (onMessage sampleManager "s1" fracResizeFrame 5).sessions "s1"
      = some { sampleSession with lastActivity := 5, pty := { sampleSession.pty with cols := ⟨5, 2⟩, rows := ⟨40, 1⟩ }, cols := ⟨5, 2⟩, rows := ⟨40, 1⟩ } ∧
    (⟨5, 2⟩ : JNum) ≠ ⟨80, 1⟩ := by
  refine ⟨by decide, by decide, by decide⟩

/-- C3 (amended): the handler validates only that the parsed frame is a
brace-prefixed JSON object with type "resize" and cols/rows of JS number type.
A frame so classified whose sizes pass the node-pty guard — including a
fractional one such as cols 2.5 — has the resize applied to the process and
the stored extent, and is not forwarded. One whose sizes fail the guard (cols
or rows 0 or negative) makes the in-try resize throw, so the frame is
forwarded in its entirety and the extent is unchanged — the claim's predicted
outcome at those inputs, reached through the exception path rather than any
validation. A frame failing the classification is forwarded in its
entirety. -/
theorem claim_C3 (st : ManagerState) (sessionId : String) (s : Session) (now : Nat)
    (h : recordGet st.sessions sessionId = some s) :
    (∀ data c r, decodeResize data = some (c, r) → resizeThrows c r = false →
      onMessage st sessionId data now = { st with sessions := recordSet st.sessions sessionId { s with lastActivity := now, pty := { s.pty with cols := c, rows := r }, cols := c, rows := r } }) ∧
    (∀ data c r, decodeResize data = some (c, r) → resizeThrows c r = true →
      onMessage st sessionId data now = { st with sessions := recordSet st.sessions sessionId { s with lastActivity := now, pty := { s.pty with written := s.pty.written ++ [data] } } }) ∧
    (∀ data, decodeResize data = none →
      onMessage st sessionId data now = { st with sessions := recordSet st.sessions sessionId { s with lastActivity := now, pty := { s.pty with written := s.pty.written ++ [data] } } }) := by
  refine ⟨?_, ?_, ?_⟩
  · intro data c r hdec hok
    unfold onMessage
    rw [h]
    dsimp only
    rw [hdec]
    dsimp only
    rw [if_neg (by simp [hok])]
  · intro data c r hdec hthrow
    unfold onMessage
    rw [h]
    dsimp only
    rw [hdec]
    dsimp only
    rw [if_pos hthrow]
  · intro data hdec
    unfold onMessage
    rw [h]
    dsimp only
    rw [hdec]

/-- Witness for C3: the fractional resize frame is applied and not forwarded,
and the zero-cols resize frame is forwarded with the extent unchanged, at a
concrete registry. -/
theorem claim_C3_witness :
    (onMessage sampleManager "s1" fracResizeFrame 5
      = { sampleManager with sessions := recordSet sampleManager.sessions "s1" { sampleSession with lastActivity := 5, pty := { sampleSession.pty with cols := ⟨5, 2⟩, rows := ⟨40, 1⟩ }, cols := ⟨5, 2⟩, rows := ⟨40, 1⟩ } }) ∧
    (onMessage sampleManager "s1" zeroResizeFrame 5
      = { sampleManager with sessions := recordSet sampleManager.sessions "s1" { sampleSession with lastActivity := 5, pty := { sampleSession.pty with written := sampleSession.pty.written ++ [zeroResizeFrame] } } }) :=
  ⟨(claim_C3 sampleManager "s1" sampleSession 5 (by decide)).1 fracResizeFrame ⟨5, 2⟩ ⟨40, 1⟩
    (by decide) (by decide),
   (claim_C3 sampleManager "s1" sampleSession 5 (by decide)).2.1 zeroResizeFrame ⟨0, 1⟩ ⟨40, 1⟩
    (by decide) (by decide)⟩

/-- C4: evaluating the code at the failing input — a first attach through the
connection handler with an explicit cwd of "/custom" — the spawned process
runs at the manager's project root, not at the requested cwd, because
`TerminalManager.attach` takes no cwd parameter and the gateway's third
argument is dropped. -/
theorem claim_C4 :
    (recordGet (connectionAttach freshManager "s1" 1 (some "/custom") 0).sessions "s1").map
      (fun s => s.pty.cwd) = some "/project" ∧ ("/project" : String) ≠ "/custom" := by
  refine ⟨by decide, by decide⟩

/-- C5 counterexample: after a close event on the bound endpoint, the session
keeps its old last-activity timestamp (the attach time, 0) — detachment does
not record a timestamp; process output also leaves all session state,
including the timestamp, unchanged. -/
theorem claim_C5_counterexample :
    recordGet (onClose sampleManager "s1" 1).sessions "s1"
      = some { sampleSession with ws := none } ∧
    sampleSession.lastActivity = 0 ∧
    (onData sampleManager "s1" "out").sessions = sampleManager.sessions := by
  refine ⟨by decide, by decide, by decide⟩

/-- C5 (amended): the last-activity timestamp is updated exactly on attach and
on inbound frames; a close or error of the bound endpoint clears the binding
to null, leaving the rest of the session — its process and its last-activity
timestamp — unchanged, so the orphan countdown runs from the last attach or
input, not from the detach instant; process output updates no session state. -/
theorem claim_C5 (st : ManagerState) (sessionId : String) (s : Session)
    (h : recordGet st.sessions sessionId = some s) :
    (∀ wsId now, recordGet (attach st sessionId wsId now).sessions sessionId
      = some { s with ws := some wsId, lastActivity := now }) ∧
    (∀ data now, ∃ s2, recordGet (onMessage st sessionId data now).sessions sessionId
      = some s2 ∧ s2.lastActivity = now) ∧
    (∀ wsId, s.ws = some wsId →
      onClose st sessionId wsId
        = { st with sessions := recordSet st.sessions sessionId { s with ws := none } } ∧
      onError st sessionId wsId
        = { st with sessions := recordSet st.sessions sessionId { s with ws := none } }) ∧
    (∀ data, (onData st sessionId data).sessions = st.sessions) := by
  refine ⟨?_, ?_, ?_, ?_⟩
  · intro wsId now
    unfold attach
    rw [h]
    exact recordGet_set_self _ _ _
  · intro data now
    unfold onMessage
    rw [h]
    dsimp only
    cases hdec : decodeResize data with
    | some p =>
      obtain ⟨c, r⟩ := p
      dsimp only
      split_ifs <;> exact ⟨_, recordGet_set_self _ _ _, rfl⟩
    | none => exact ⟨_, recordGet_set_self _ _ _, rfl⟩
  · intro wsId hws
    constructor
    · unfold onClose
      rw [h]
      dsimp only
      rw [if_pos hws]
    · unfold onError
      rw [h]
      dsimp only
      rw [if_pos hws]
  · intro data
    unfold onData
    rw [h]
    dsimp only
    cases s.ws with
    | some w =>
      dsimp only
      split_ifs <;> rfl
    | none => rfl

/-- Witness for C5: a bound-endpoint close on a concrete registry. -/
theorem claim_C5_witness :
    onClose sampleManager "s1" 1
      = { sampleManager with sessions := recordSet sampleManager.sessions "s1" { sampleSession with ws := none } } :=
  ((claim_C5 sampleManager "s1" sampleSession (by decide)).2.2.1 1 (by decide)).1

/-- C10: a close or error event from a stale endpoint, no longer the bound
one, leaves the registry completely unchanged; only a close or error of the
currently bound endpoint clears the binding. -/
theorem claim_C10 (st : ManagerState) (sessionId : String) (s : Session) (e1 e2 : Nat)
    (h : recordGet st.sessions sessionId = some s) (hbound : s.ws = some e2) :
    (e1 ≠ e2 → onClose st sessionId e1 = st ∧ onError st sessionId e1 = st) ∧
    (onClose st sessionId e2
      = { st with sessions := recordSet st.sessions sessionId { s with ws := none } } ∧
     onError st sessionId e2
      = { st with sessions := recordSet st.sessions sessionId { s with ws := none } }) := by
  constructor
  · intro hne
    have hcond : ¬ (s.ws = some e1) := by
      rw [hbound]
      intro hc
      exact hne (by simpa using hc.symm)
    constructor
    · unfold onClose
      rw [h]
      dsimp only
      rw [if_neg hcond]
    · unfold onError
      rw [h]
      dsimp only
      rw [if_neg hcond]
  · constructor
    · unfold onClose
      rw [h]
      dsimp only
      rw [if_pos hbound]
    · unfold onError
      rw [h]
      dsimp only
      rw [if_pos hbound]

/-- Witness for C10: a stale endpoint (2) closing after endpoint 1 is bound
leaves the concrete registry unchanged. -/
theorem claim_C10_witness :
    onClose sampleManager "s1" 2 = sampleManager ∧ onError sampleManager "s1" 2 = sampleManager :=
  (claim_C10 sampleManager "s1" sampleSession 2 1 (by decide) (by decide)).1 (by decide)
